import Mathlib

/-!
Verification of the daf_butler core data model and registry contracts.

This file gives a shallow embedding of the relevant parts of the
repository and proves (or refutes) the frozen claims about it:

* `core/datasets.py` — the legacy `DatasetType` and `DatasetRef` classes
  (slot-based equality, `detach`).
* `core/datasets/ref.py` — the new `DatasetRef` class (`__new__`
  validation, `resolved` / `unresolved`, content hash, `__eq__`,
  `__hash__`).
* `core/utils.py` — `slotValuesAreEqual` and `TopologicalSet`
  (depth-first topological ordering with cycle detection).
* `registry/databases/oracle.py` — `OracleDatabase.replace` (MERGE
  upsert) and the read-only guard.
* The `Registry` operations `registerDatasetType`, `insertDatasets` and
  the nested-transaction contract, whose implementations live outside
  the provided sources; these are modelled from the specification and
  marked as such in their doc comments.

Python dictionaries are modelled as association lists in insertion
order, Python sets as lists, and exceptions as `Except` values.
-/

namespace DafButler

/-- A primitive value appearing in a data ID (dimension link values are
strings or integers in the tests). -/
inductive DVal where
  | s (v : String)
  | i (v : Int)
deriving DecidableEq

/-- A data ID: a mapping from dimension names to values, modelled as an
association list in insertion order.  (Python `dict` equality is
order-insensitive; the embedding fixes the key order produced by the
constructing code, which is the same on both sides of every comparison
proved below.) -/
abbrev DataId := List (String × DVal)

/-- Association-list lookup, modelling `dict.get` / `dict.__getitem__`. -/
def alistGet {α : Type} (d : List (String × α)) (k : String) : Option α :=
  (d.find? (fun p => p.1 == k)).map (fun p => p.2)

/-- `dict.update`: keys already in `base` keep their position and take the
overriding value from `upd` when present; keys only in `upd` are appended
in `upd`'s order. -/
def dictUpdate {α : Type} (base upd : List (String × α)) : List (String × α) :=
  base.map (fun p => (p.1, (alistGet upd p.1).getD p.2))
    ++ upd.filter (fun p => (alistGet base p.1).isNone)

/-- Modelled from the spec: `StorageClass` (its module `storageClass.py`
is not among the provided sources; only its use sites are).  A storage
class is a named definition carrying a python-type name and a mapping
from component names to the component storage classes; per the spec's
design note, equality is structurally derived from the declared fields. -/
inductive StorageClass where
  | mk (name : String) (pytypeName : String)
       (components : List (String × StorageClass))

def StorageClass.name : StorageClass → String
  | .mk n _ _ => n

def StorageClass.pytypeName : StorageClass → String
  | .mk _ p _ => p

def StorageClass.components : StorageClass → List (String × StorageClass)
  | .mk _ _ c => c

mutual

/-- `StorageClass.__eq__`: structural comparison of name, python-type
name, and the component mapping (recursively). -/
def StorageClass.beq : StorageClass → StorageClass → Bool
  | .mk n1 p1 c1, .mk n2 p2 c2 =>
    n1 == n2 && p1 == p2 && StorageClass.beqComponents c1 c2

/-- Pointwise equality of two component mappings. -/
def StorageClass.beqComponents :
    List (String × StorageClass) → List (String × StorageClass) → Bool
  | [], [] => true
  | (k1, v1) :: t1, (k2, v2) :: t2 =>
    k1 == k2 && StorageClass.beq v1 v2 && StorageClass.beqComponents t1 t2
  | _, _ => false

end

instance : BEq StorageClass := ⟨StorageClass.beq⟩

/-- Equal storage classes (under `__eq__`) have equal names. -/
theorem StorageClass.beq_name {a b : StorageClass}
    (h : StorageClass.beq a b = true) : a.name = b.name := by
  cases a with
  | mk n1 p1 c1 =>
    cases b with
    | mk n2 p2 c2 =>
      unfold StorageClass.beq at h
      simp only [Bool.and_eq_true, beq_iff_eq] at h
      exact h.1.1

mutual

/-- `__eq__` on storage classes is reflexive. -/
theorem StorageClass.beq_refl : ∀ (a : StorageClass),
    StorageClass.beq a a = true
  | .mk n p c => by
    unfold StorageClass.beq
    simp only [Bool.and_eq_true, beq_self_eq_true, true_and]
    exact StorageClass.beqComponents_refl c

/-- Pointwise component equality is reflexive. -/
theorem StorageClass.beqComponents_refl :
    ∀ (c : List (String × StorageClass)),
    StorageClass.beqComponents c c = true
  | [] => rfl
  | (k, v) :: t => by
    unfold StorageClass.beqComponents
    simp only [Bool.and_eq_true, beq_self_eq_true, true_and]
    exact ⟨StorageClass.beq_refl v, StorageClass.beqComponents_refl t⟩

end

/-- `DatasetType` slots, from `core/datasets.py`: `_name`, `_dimensions`,
`_storageClass`, `_storageClassName`.  Dimensions are modelled by their
name list (a `DimensionNameSet`). -/
structure DatasetType where
  _name : String
  _dimensions : List String
  _storageClass : Option StorageClass
  _storageClassName : String

/-- `DatasetType.__init__`: a storage class may be given by instance or by
name; in the latter case the instance slot stays unset (`None`). -/
def DatasetType.init (name : String) (dimensions : List String)
    (storageClass : StorageClass ⊕ String) : DatasetType :=
  match storageClass with
  | .inl sc => ⟨name, dimensions, some sc, sc.name⟩
  | .inr scName => ⟨name, dimensions, none, scName⟩

/-- Well-formedness maintained by `DatasetType.__init__`: when the
instance slot is set, the name slot is that instance's name. -/
def DatasetType.wf (t : DatasetType) : Prop :=
  ∀ sc, t._storageClass = some sc → t._storageClassName = sc.name

/-- `DatasetType.__eq__` from `core/datasets.py` lines 102-110: compare
names, then dimensions, then the storage-class *instances* when both are
set, falling back to storage-class names otherwise. -/
def DatasetType.eqPy (a b : DatasetType) : Bool :=
  if a._name ≠ b._name then false
  else if a._dimensions ≠ b._dimensions then false
  else
    match a._storageClass, b._storageClass with
    | some x, some y => x == y
    | _, _ => a._storageClassName == b._storageClassName

/-- The tuple fed to `hash` by `DatasetType.__hash__` (lines 112-118):
`(self._name, self._dimensions, self._storageClassName)`. -/
def DatasetType.hashBasis (t : DatasetType) :
    String × List String × String :=
  (t._name, t._dimensions, t._storageClassName)

/-- Python error classes distinguished by the embedded code. -/
inductive PyErr where
  | valueError (msg : String)
  | lookupError
  | keyError
  | conflictingDefinition
  | readOnlyDatabase
  | integrityError
deriving DecidableEq

/-- `DatasetType.storageClass` property: the instance slot when it is
set; otherwise the name is resolved through the process-global
`StorageClassFactory`, which (per the spec design note on singleton
registries) is modelled as an explicit mapping passed by reference.  An
unregistered name raises a lookup failure. -/
def DatasetType.storageClassPy (t : DatasetType)
    (factory : List (String × StorageClass)) : Except PyErr StorageClass :=
  match t._storageClass with
  | some sc => Except.ok sc
  | none =>
    match alistGet factory t._storageClassName with
    | some sc => Except.ok sc
    | none => Except.error PyErr.keyError

/-- Insert a key/value pair into a key-sorted list, keeping it sorted. -/
def insertSortedByKey (p : String × DVal) :
    List (String × DVal) → List (String × DVal)
  | [] => [p]
  | q :: t => if p.1 ≤ q.1 then p :: q :: t else q :: insertSortedByKey p t

/-- Modelled from the spec: the fingerprint contribution of a data ID
(`DataCoordinate.fingerprint` lives in the dimensions package, which is
not among the provided sources) — a stable byte sequence built from the
sorted (key, value) pairs of the coordinate. -/
def DataId.fingerprint (d : DataId) : List (String × DVal) :=
  d.foldr insertSortedByKey []

/-- The 32-byte BLAKE2 digest of `DatasetRef.hash`.  The digest function
is a fixed pure function of its input stream (the dataset type name in
UTF-8 followed by the data ID fingerprint), so the digest is modelled by
that input stream itself. -/
structure ContentHash where
  typeName : String
  fingerprint : List (String × DVal)
deriving DecidableEq

/-- The message digested by `DatasetRef.hash` (ref.py lines 141-145):
the dataset type name, then the data ID fingerprint. -/
def contentHash (name : String) (d : DataId) : ContentHash :=
  ⟨name, DataId.fingerprint d⟩

/-- Modelled from the spec: `DataCoordinate.standardize` (the dimensions
package is not among the provided sources).  It conforms a key/value
mapping to exactly the graph's required dimension names and fails with a
LookupError-class error when a required key is missing.  (Deriving
values implied by already-present keys needs the dimension universe,
which none of the claims exercise.) -/
def standardize (d : DataId) (required : List String) :
    Except PyErr DataId :=
  required.mapM (fun n =>
    match alistGet d n with
    | some v => Except.ok (n, v)
    | none => Except.error PyErr.lookupError)

/-- The new `DatasetRef` from `core/datasets/ref.py`, with slots
`id`, `datasetType`, `dataId`, `run`, `_hash` (optional cache) and
`_components` (`None` exactly for unresolved refs). -/
inductive DatasetRef where
  | mk (datasetType : DatasetType) (dataId : DataId) (id : Option Nat)
       (run : Option String) (hashCache : Option ContentHash)
       (comps : Option (List (String × DatasetRef)))

def DatasetRef.datasetType : DatasetRef → DatasetType
  | .mk t _ _ _ _ _ => t

def DatasetRef.dataId : DatasetRef → DataId
  | .mk _ d _ _ _ _ => d

def DatasetRef.id : DatasetRef → Option Nat
  | .mk _ _ i _ _ _ => i

def DatasetRef.run : DatasetRef → Option String
  | .mk _ _ _ r _ _ => r

def DatasetRef.hashCache : DatasetRef → Option ContentHash
  | .mk _ _ _ _ h _ => h

def DatasetRef.comps : DatasetRef → Option (List (String × DatasetRef))
  | .mk _ _ _ _ _ c => c

/-- The `components` property (ref.py lines 148-159): a read-only view
of `_components`, hence `None` exactly when `_components` is `None`. -/
def DatasetRef.components (r : DatasetRef) :
    Option (List (String × DatasetRef)) :=
  r.comps

/-- The component validation loop of `DatasetRef.__new__` (ref.py lines
94-107): each component name must be declared by the parent storage
class, each component must itself be resolved, and its storage class
must equal the declared component storage class.  (The `isinstance`
guard is enforced by typing in the embedding.) -/
def checkComponents (factory : List (String × StorageClass))
    (parent : DatasetType) :
    List (String × DatasetRef) → Except PyErr Unit
  | [] => Except.ok ()
  | (k, v) :: rest =>
    match parent.storageClassPy factory with
    | Except.error e => Except.error e
    | Except.ok psc =>
      match alistGet psc.components k with
      | none =>
        Except.error (PyErr.valueError "not a valid component for storage class")
      | some expected =>
        if v.id = none then
          Except.error (PyErr.valueError "DatasetRef components must be resolved")
        else
          match v.datasetType.storageClassPy factory with
          | Except.error e => Except.error e
          | Except.ok vsc =>
            if StorageClass.beq expected vsc then
              checkComponents factory parent rest
            else
              Except.error (PyErr.valueError "storage class mismatch for component")

/-- The resolved branch of `__new__`: validate the collected component
dict, then build the ref with `_components` set. -/
def DatasetRef.mkResolved (factory : List (String × StorageClass))
    (datasetType : DatasetType) (dataId' : DataId) (i : Nat)
    (run : Option String) (hash : Option ContentHash)
    (comps : List (String × DatasetRef)) : Except PyErr DatasetRef :=
  match checkComponents factory datasetType comps with
  | Except.error e => Except.error e
  | Except.ok _ =>
    Except.ok (DatasetRef.mk datasetType dataId' (some i) run hash (some comps))

/-- `DatasetRef.__new__` (ref.py lines 78-126).  With an id, the
supplied components are collected into a fresh dict and validated, and
`run` is kept as given; without an id, a truthy `components` or a
non-`None` `run` raises `ValueError` and both `run` and `_components`
are set to `None`.  The optional `hash` argument pre-populates the
digest cache. -/
def DatasetRef.new (factory : List (String × StorageClass))
    (datasetType : DatasetType) (dataId : DataId) (id : Option Nat)
    (run : Option String) (hash : Option ContentHash)
    (components : Option (List (String × DatasetRef))) (conform : Bool) :
    Except PyErr DatasetRef :=
  match (if conform then standardize dataId datasetType._dimensions
      else Except.ok dataId) with
  | Except.error e => Except.error e
  | Except.ok dataId' =>
    match id with
    | some i =>
      DatasetRef.mkResolved factory datasetType dataId' i run hash
        (match components with | none => [] | some cs => cs)
    | none =>
      match components with
      | some (_ :: _) =>
        Except.error (PyErr.valueError "components cannot be provided unless id is")
      | _ =>
        match run with
        | some _ =>
          Except.error (PyErr.valueError "run cannot be provided unless id is")
        | none =>
          Except.ok (DatasetRef.mk datasetType dataId' none none hash none)

/-- Anatomy of a successful resolved construction: the component check
passed and the result is the expected record. -/
theorem DatasetRef.mkResolved_shape
    {factory : List (String × StorageClass)} {t : DatasetType}
    {d' : DataId} {i : Nat} {run : Option String}
    {hash : Option ContentHash} {comps : List (String × DatasetRef)}
    {r : DatasetRef} :
    DatasetRef.mkResolved factory t d' i run hash comps = Except.ok r →
    checkComponents factory t comps = Except.ok () ∧
    r = DatasetRef.mk t d' (some i) run hash (some comps) := by
  unfold DatasetRef.mkResolved
  split
  · intro h
    cases h
  · rename_i u heq
    intro h
    injection h with h
    cases u
    exact ⟨heq, h.symm⟩

/-- The `hash` property (ref.py lines 137-146): the cached digest when
present, else the BLAKE2 digest of the type name and data ID
fingerprint (computed once and cached; caching is modelled by the pure
value). -/
def DatasetRef.hashPy (r : DatasetRef) : ContentHash :=
  match r.hashCache with
  | some h => h
  | none => contentHash r.datasetType._name r.dataId

/-- `DatasetRef.resolved` (ref.py lines 188-217): a new ref with the
same type and data ID, the given id and run, the current digest passed
as the hash cache, and the previous components merged with the supplied
ones (supplied entries taking precedence); `conform=False`. -/
def DatasetRef.resolved (factory : List (String × StorageClass))
    (r : DatasetRef) (id : Nat) (run : String)
    (components : Option (List (String × DatasetRef))) :
    Except PyErr DatasetRef :=
  let base : List (String × DatasetRef) :=
    match r.comps with
    | some cs => cs
    | none => []
  let newComponents : List (String × DatasetRef) :=
    match components with
    | some (c :: cs) => dictUpdate base (c :: cs)
    | _ => base
  DatasetRef.new factory r.datasetType r.dataId (some id) (some run)
    (some r.hashPy) (some newComponents) false

/-- `DatasetRef.unresolved` (ref.py lines 219-237): a new ref with the
same type and data ID but no id, run, or components; the current digest
is passed as the hash cache; `conform=False`. -/
def DatasetRef.unresolved (factory : List (String × StorageClass))
    (r : DatasetRef) : Except PyErr DatasetRef :=
  DatasetRef.new factory r.datasetType r.dataId none none
    (some r.hashPy) none false

/-- `DatasetRef.__eq__` (ref.py lines 128-132): tuple comparison of
`(datasetType, dataId, id)`, each component compared with its own
equality (`DatasetType.__eq__`, dict equality, integer equality). -/
def DatasetRef.eqPy (a b : DatasetRef) : Bool :=
  DatasetType.eqPy a.datasetType b.datasetType
    && a.dataId == b.dataId && a.id == b.id

/-- The argument tuple of `DatasetRef.__hash__` (ref.py lines 134-135):
`(self.datasetType, self.dataId, self.id)`.  The source reads
`hash(self.datasetType, self.dataId, self.id)` — the Python builtin
`hash` takes a single argument, so an actual `hash(ref)` call raises
`TypeError`; the intended expression (parenthesised as in the upstream
project) hashes this triple, which includes `id`. -/
def DatasetRef.pyHashBasis (r : DatasetRef) :
    DatasetType × DataId × Option Nat :=
  (r.datasetType, r.dataId, r.id)

/-- The legacy `DatasetRef` from `core/datasets.py` with all nine slots
(lines 249-250): id, dataset type, data ID, producer, run, hash cache,
predicted/actual consumers, and the component dict.  Producers and
consumers are identified by name; they never matter to the claims. -/
inductive DatasetRefOld where
  | mk (_id : Option Nat) (_datasetType : DatasetType) (_dataId : DataId)
       (_producer : Option String) (_run : Option String)
       (_hash : Option ContentHash)
       (_predictedConsumers : List (String × String))
       (_actualConsumers : List (String × String))
       (_components : List (String × DatasetRefOld))

def DatasetRefOld.idSlot : DatasetRefOld → Option Nat
  | .mk i _ _ _ _ _ _ _ _ => i

def DatasetRefOld.datasetTypeSlot : DatasetRefOld → DatasetType
  | .mk _ t _ _ _ _ _ _ _ => t

def DatasetRefOld.dataIdSlot : DatasetRefOld → DataId
  | .mk _ _ d _ _ _ _ _ _ => d

def DatasetRefOld.producerSlot : DatasetRefOld → Option String
  | .mk _ _ _ p _ _ _ _ _ => p

def DatasetRefOld.runSlot : DatasetRefOld → Option String
  | .mk _ _ _ _ r _ _ _ _ => r

def DatasetRefOld.hashSlot : DatasetRefOld → Option ContentHash
  | .mk _ _ _ _ _ h _ _ _ => h

def DatasetRefOld.componentsSlot : DatasetRefOld → List (String × DatasetRefOld)
  | .mk _ _ _ _ _ _ _ _ c => c

/-- Legacy `DatasetRef.__init__` (datasets.py lines 252-262): producer
starts as `None`, consumer dicts and the component dict start empty. -/
def DatasetRefOld.init (datasetType : DatasetType) (dataId : DataId)
    (id : Option Nat) (run : Option String) (hash : Option ContentHash) :
    DatasetRefOld :=
  .mk id datasetType dataId none run hash [] [] []

mutual

/-- `slotValuesAreEqual` (utils.py lines 82-99) applied to the legacy
`DatasetRef` (datasets.py line 264: `__eq__ = slotValuesAreEqual`): the
conjunction of per-slot equalities over all nine slots, each slot
compared with its own equality (so component values recurse into
`slotValuesAreEqual` again). -/
def DatasetRefOld.slotEq : DatasetRefOld → DatasetRefOld → Bool
  | .mk i1 t1 d1 p1 r1 h1 pc1 ac1 c1, .mk i2 t2 d2 p2 r2 h2 pc2 ac2 c2 =>
    i1 == i2 && DatasetType.eqPy t1 t2 && d1 == d2 && p1 == p2 && r1 == r2
      && h1 == h2 && pc1 == pc2 && ac1 == ac2
      && DatasetRefOld.slotEqComponents c1 c2

/-- Dict equality of legacy component mappings. -/
def DatasetRefOld.slotEqComponents :
    List (String × DatasetRefOld) → List (String × DatasetRefOld) → Bool
  | [], [] => true
  | (k1, v1) :: t1, (k2, v2) :: t2 =>
    k1 == k2 && DatasetRefOld.slotEq v1 v2
      && DatasetRefOld.slotEqComponents t1 t2
  | _, _ => false

end

/-- `DatasetRef.detach` (datasets.py lines 354-362): deep-copy the ref
and clear its `_id` slot.  In the value model a deep copy is the value
itself, so every other slot — including `_run` and `_components` — is
preserved, and the original value is untouched by construction. -/
def DatasetRefOld.detach : DatasetRefOld → DatasetRefOld
  | .mk _ t d p r h pc ac c => .mk none t d p r h pc ac c

/-! Concrete instances used by counterexamples and witnesses. -/

/-- A storage class named SC with python type typeA. -/
def scA : StorageClass := .mk "SC" "typeA" []

/-- A storage class named SC with python type typeB (same name as `scA`,
different python type). -/
def scB : StorageClass := .mk "SC" "typeB" []

/-- A dataset type built from the storage-class instance `scA`. -/
def dtA : DatasetType := DatasetType.init "T" ["instrument"] (.inl scA)

/-- A dataset type equal to `dtA` in name, dimensions and storage-class
name, but built from the instance `scB`. -/
def dtB : DatasetType := DatasetType.init "T" ["instrument"] (.inl scB)

/-- A concrete one-dimension data ID. -/
def dRef : DataId := [("instrument", DVal.s "DummyCam")]

/-- A dataset type whose storage class is given by name only. -/
def dt0 : DatasetType := DatasetType.init "test" ["instrument"] (.inr "SC")

/-- A resolved new-style ref with id 1 in run1. -/
def ref0 : DatasetRef := DatasetRef.mk dt0 dRef (some 1) (some "run1") none (some [])

/-- A legacy ref with id 1 in run1. -/
def oldRefRun1 : DatasetRefOld := DatasetRefOld.init dtA dRef (some 1) (some "run1") none

/-- A legacy ref identical to `oldRefRun1` except for its run. -/
def oldRefRun2 : DatasetRefOld := DatasetRefOld.init dtA dRef (some 1) (some "run2") none

/-! ### C9 — DatasetType equality and hash -/

/-- C9 (amended): `DatasetType.__hash__` is determined by (name,
dimensions, storage-class name) alone, and `DatasetType.__eq__` compares
name, dimensions, and then the storage-class *instances* whenever both
are set (falling back to storage-class names otherwise); on well-formed
values equality still implies hash-equality. -/
theorem datasetType_eq_hash_characterization (a b : DatasetType)
    (hwa : a.wf) (hwb : b.wf) :
    (a._name = b._name → a._dimensions = b._dimensions →
      a._storageClassName = b._storageClassName → a.hashBasis = b.hashBasis) ∧
    (DatasetType.eqPy a b = true ↔
      (a._name = b._name ∧ a._dimensions = b._dimensions ∧
        ((∃ x y, a._storageClass = some x ∧ b._storageClass = some y ∧
            StorageClass.beq x y = true) ∨
          ((a._storageClass = none ∨ b._storageClass = none) ∧
            a._storageClassName = b._storageClassName)))) ∧
    (DatasetType.eqPy a b = true → a.hashBasis = b.hashBasis) := by
  have hchar : DatasetType.eqPy a b = true ↔
      (a._name = b._name ∧ a._dimensions = b._dimensions ∧
        ((∃ x y, a._storageClass = some x ∧ b._storageClass = some y ∧
            StorageClass.beq x y = true) ∨
          ((a._storageClass = none ∨ b._storageClass = none) ∧
            a._storageClassName = b._storageClassName))) := by
    unfold DatasetType.eqPy
    split_ifs with hn hd
    · simp only [false_iff]
      intro h
      exact hn h.1
    · simp only [false_iff]
      intro h
      exact hd h.2.1
    · push_neg at hn hd
      cases hsa : a._storageClass with
      | some x =>
        cases hsb : b._storageClass with
        | some y =>
          simp only [hn, hd, true_and]
          constructor
          · intro h
            exact Or.inl ⟨x, y, rfl, rfl, h⟩
          · intro h
            rcases h with ⟨x', y', hx', hy', hbeq⟩ | ⟨hnone, _⟩
            · cases hx'
              cases hy'
              exact hbeq
            · rcases hnone with h | h <;> simp_all
        | none =>
          simp only [beq_iff_eq, hn, hd, true_and]
          constructor
          · intro h
            exact Or.inr ⟨Or.inr (by trivial), h⟩
          · intro h
            rcases h with ⟨x', y', _, hy', _⟩ | ⟨_, h⟩
            · simp_all
            · exact h
      | none =>
        simp only [beq_iff_eq, hn, hd, true_and]
        constructor
        · intro h
          exact Or.inr ⟨Or.inl (by trivial), h⟩
        · intro h
          rcases h with ⟨x', y', hx', _, _⟩ | ⟨_, h⟩
          · simp_all
          · exact h
  refine ⟨?_, hchar, ?_⟩
  · intro h1 h2 h3
    unfold DatasetType.hashBasis
    rw [h1, h2, h3]
  · intro heq
    rcases hchar.mp heq with ⟨h1, h2, h3⟩
    unfold DatasetType.hashBasis
    rw [h1, h2]
    rcases h3 with ⟨x, y, hx, hy, hbeq⟩ | ⟨_, h⟩
    · rw [hwa x hx, hwb y hy, StorageClass.beq_name hbeq]
    · rw [h]

/-- C9 witness: instantiating the characterization at `dtA`. -/
theorem datasetType_eq_hash_characterization_witness :
    dtA.wf ∧
    (DatasetType.eqPy dtA dtA = true → dtA.hashBasis = dtA.hashBasis) := by
  have hw : dtA.wf := by
    intro sc h
    injection h with h2
    rw [← h2]
    rfl
  exact ⟨hw, (datasetType_eq_hash_characterization dtA dtA hw hw).2.2⟩

/-- C9 counterexample: two dataset types with equal names, equal
dimensions and equal storage-class names — hence hash-equal — that are
nevertheless unequal under `DatasetType.__eq__`, because both carry
storage-class instances and the instances differ (same storage-class
name, different python type). -/
theorem datasetType_eq_instance_sensitive :
    dtA._name = dtB._name ∧ dtA._dimensions = dtB._dimensions ∧
    dtA._storageClassName = dtB._storageClassName ∧
    dtA.hashBasis = dtB.hashBasis ∧
    DatasetType.eqPy dtA dtB = false := by
  refine ⟨rfl, rfl, rfl, rfl, ?_⟩
  decide

/-! ### C2 — DatasetRef equality -/

/-- C2 (amended): in the new `DatasetRef` (`core/datasets/ref.py`),
`a == b` holds iff the triples `(datasetType, dataId, id)` agree — `run`
and components play no role; but the legacy `DatasetRef`
(`core/datasets.py`) uses `slotValuesAreEqual`, which is strictly finer:
it additionally compares producer, run, hash cache, consumers and
components. -/
theorem datasetRef_eq_canonical_triple :
    (∀ a b : DatasetRef, DatasetRef.eqPy a b = true ↔
      (DatasetType.eqPy a.datasetType b.datasetType = true ∧
        a.dataId = b.dataId ∧ a.id = b.id)) ∧
    (∀ a b : DatasetRefOld, DatasetRefOld.slotEq a b = true →
      DatasetType.eqPy a.datasetTypeSlot b.datasetTypeSlot = true ∧
        a.dataIdSlot = b.dataIdSlot ∧ a.idSlot = b.idSlot ∧
        a.runSlot = b.runSlot) := by
  constructor
  · intro a b
    unfold DatasetRef.eqPy
    simp [Bool.and_eq_true, and_assoc]
  · intro a b h
    cases a with
    | mk i1 t1 d1 p1 r1 h1 pc1 ac1 c1 =>
      cases b with
      | mk i2 t2 d2 p2 r2 h2 pc2 ac2 c2 =>
        unfold DatasetRefOld.slotEq at h
        simp only [Bool.and_eq_true, beq_iff_eq] at h
        exact ⟨h.1.1.1.1.1.1.1.2, h.1.1.1.1.1.1.2, h.1.1.1.1.1.1.1.1, h.1.1.1.1.2⟩

/-- C2 counterexample: two legacy refs agreeing on dataset type, data ID
and id but with different runs are unequal under the legacy
`slotValuesAreEqual` equality, so equality is not determined by the
triple in that code path. -/
theorem legacy_eq_uses_run :
    oldRefRun1.idSlot = oldRefRun2.idSlot ∧
    oldRefRun1.datasetTypeSlot = oldRefRun2.datasetTypeSlot ∧
    oldRefRun1.dataIdSlot = oldRefRun2.dataIdSlot ∧
    DatasetRefOld.slotEq oldRefRun1 oldRefRun2 = false := by
  refine ⟨rfl, rfl, rfl, ?_⟩
  decide

/-! ### C8 — detach -/

/-- C8 (amended): `detach()` returns a new legacy ref whose id is `None`
without changing any other slot — in particular `run` and the component
dict are preserved, not stripped as `unresolved()` would; the original
ref is a value and is not mutated. -/
theorem detach_clears_only_id (r : DatasetRefOld) :
    (r.detach).idSlot = none ∧
    (r.detach).datasetTypeSlot = r.datasetTypeSlot ∧
    (r.detach).dataIdSlot = r.dataIdSlot ∧
    (r.detach).runSlot = r.runSlot ∧
    (r.detach).componentsSlot = r.componentsSlot ∧
    (r.detach).producerSlot = r.producerSlot ∧
    (r.detach).hashSlot = r.hashSlot := by
  cases r
  exact ⟨rfl, rfl, rfl, rfl, rfl, rfl, rfl⟩

/-- C8 counterexample: detaching a ref created in run1 yields a ref that
still carries `run = run1`, so `detach()` does not strip id, run and
components the way `unresolved()` does. -/
theorem detach_keeps_run :
    (oldRefRun1.detach).idSlot = none ∧
    (oldRefRun1.detach).runSlot = some "run1" :=
  ⟨rfl, rfl⟩

/-! ### C1 — content hash and resolve/unresolve round trips -/

/-- C1 (amended): the content hash `ref.hash` is derived from the
dataset-type name and the data ID only, so it is invariant across
`unresolved()`/`resolved(id, run)` round trips, which also preserve the
data ID and dataset type; Python `hash(ref)`, by contrast, is computed
from the triple including `id` (see the counterexample). -/
theorem contentHash_roundtrip_invariant :
    (∀ (factory : List (String × StorageClass)) (r : DatasetRef)
        (i : Nat) (runName : String),
      ∃ ru rr, DatasetRef.unresolved factory r = Except.ok ru ∧
        DatasetRef.resolved factory ru i runName none = Except.ok rr ∧
        ru.datasetType = r.datasetType ∧ ru.dataId = r.dataId ∧
        rr.datasetType = r.datasetType ∧ rr.dataId = r.dataId ∧
        rr.id = some i ∧ rr.run = some runName ∧
        ru.hashPy = r.hashPy ∧ rr.hashPy = r.hashPy) ∧
    (∀ (t : DatasetType) (d : DataId) (i1 i2 : Option Nat)
        (r1 r2 : Option String)
        (c1 c2 : Option (List (String × DatasetRef))),
      (DatasetRef.mk t d i1 r1 none c1).hashPy
        = (DatasetRef.mk t d i2 r2 none c2).hashPy) := by
  constructor
  · intro factory r i runName
    cases r with
    | mk t d i0 run0 hc c0 =>
      exact ⟨_, _, rfl, rfl, rfl, rfl, rfl, rfl, rfl, rfl, rfl, rfl⟩
  · intro t d i1 i2 r1 r2 c1 c2
    rfl

/-- C1 counterexample: for a ref with id 1, resolving the unresolved
copy with id 2 preserves the content hash but changes the tuple that
`DatasetRef.__hash__` hashes — that tuple contains `id`, so Python
`hash(ref)` is not a function of the dataset-type name and data ID
alone (and as written the call even raises `TypeError`). -/
theorem pyHash_depends_on_id :
    ∃ ru rr, DatasetRef.unresolved [] ref0 = Except.ok ru ∧
      DatasetRef.resolved [] ru 2 "run2" none = Except.ok rr ∧
      rr.hashPy = ref0.hashPy ∧
      DatasetRef.pyHashBasis rr ≠ DatasetRef.pyHashBasis ref0 := by
  refine ⟨_, _, rfl, rfl, rfl, ?_⟩
  intro h
  have h2 := congrArg (fun p => p.2.2) h
  simp only [DatasetRef.pyHashBasis, DatasetRef.id, ref0] at h2
  cases h2

/-! ### C7 — resolution-state invariants of DatasetRef construction -/

/-- Validation facts established for every component accepted by the
construction loop. -/
def componentOk (factory : List (String × StorageClass))
    (parent : DatasetType) (k : String) (v : DatasetRef) : Prop :=
  v.id ≠ none ∧
  ∃ psc expected vsc,
    parent.storageClassPy factory = Except.ok psc ∧
    alistGet psc.components k = some expected ∧
    v.datasetType.storageClassPy factory = Except.ok vsc ∧
    StorageClass.beq expected vsc = true

/-- If the component validation loop succeeds, every supplied component
is resolved and its storage class equals the declared component storage
class of the parent. -/
theorem checkComponents_ok {factory : List (String × StorageClass)}
    {parent : DatasetType} :
    ∀ {cs : List (String × DatasetRef)},
    checkComponents factory parent cs = Except.ok () →
    ∀ k v, (k, v) ∈ cs → componentOk factory parent k v := by
  intro cs
  induction cs with
  | nil =>
    intro _ k v hmem
    cases hmem
  | cons hd tl ih =>
    intro h k v hmem
    obtain ⟨k0, v0⟩ := hd
    unfold checkComponents at h
    split at h
    · cases h
    · rename_i psc hpsc
      split at h
      · cases h
      · rename_i expected hexp
        split at h
        · cases h
        · rename_i hid
          split at h
          · cases h
          · rename_i vsc hvsc
            split at h
            · rename_i hbeq
              cases hmem with
              | head =>
                exact ⟨hid, psc, expected, vsc, hpsc, hexp, hvsc, hbeq⟩
              | tail _ hmem2 =>
                exact ih h k v hmem2
            · cases h

/-- C7: for every ref produced by `DatasetRef.__new__`, `id is None` iff
`run is None and components is None`; supplying a run or a non-empty
component mapping without an id raises `ValueError`; and every supplied
component of a resolved ref is itself resolved with a storage class
equal to the parent storage class's declared component storage class
for that name. -/
theorem datasetRef_resolution_invariants :
    (∀ (factory : List (String × StorageClass)) (t : DatasetType)
        (d : DataId) (i : Option Nat) (run : Option String)
        (h : Option ContentHash)
        (cs : Option (List (String × DatasetRef))) (conform : Bool)
        (r : DatasetRef),
      DatasetRef.new factory t d i run h cs conform = Except.ok r →
      (r.id = none ↔ (r.run = none ∧ r.components = none))) ∧
    (∀ (factory : List (String × StorageClass)) (t : DatasetType)
        (d : DataId) (run : Option String) (h : Option ContentHash)
        (cs : Option (List (String × DatasetRef))) (conform : Bool),
      (if conform then ∃ x, standardize d t._dimensions = Except.ok x
        else True) →
      (run ≠ none ∨ ∃ c ctl, cs = some (c :: ctl)) →
      ∃ msg, DatasetRef.new factory t d none run h cs conform
        = Except.error (PyErr.valueError msg)) ∧
    (∀ (factory : List (String × StorageClass)) (t : DatasetType)
        (d : DataId) (i : Nat) (run : Option String)
        (h : Option ContentHash) (cs : List (String × DatasetRef))
        (conform : Bool) (r : DatasetRef),
      DatasetRef.new factory t d (some i) run h (some cs) conform
        = Except.ok r →
      ∀ k v, (k, v) ∈ cs → componentOk factory t k v) := by
  refine ⟨?_, ?_, ?_⟩
  · intro factory t d i run h cs conform r hok
    unfold DatasetRef.new at hok
    split at hok
    · cases hok
    · split at hok
      · obtain ⟨-, rfl⟩ := DatasetRef.mkResolved_shape hok
        simp [DatasetRef.id, DatasetRef.run, DatasetRef.components,
          DatasetRef.comps]
      · split at hok
        · cases hok
        · split at hok
          · cases hok
          · injection hok with hok
            subst hok
            simp [DatasetRef.id, DatasetRef.run, DatasetRef.components,
              DatasetRef.comps]
  · intro factory t d run h cs conform hstd hbad
    unfold DatasetRef.new
    have hd' : ∃ d', (if conform then standardize d t._dimensions
        else Except.ok d) = Except.ok d' := by
      cases conform with
      | true => exact hstd
      | false => exact ⟨d, rfl⟩
    obtain ⟨d', hd'⟩ := hd'
    rw [hd']
    rcases hbad with hrun | ⟨c, ctl, hcs⟩
    · cases cs with
      | some l =>
        cases l with
        | cons c ctl => exact ⟨_, rfl⟩
        | nil =>
          cases run with
          | some _ => exact ⟨_, rfl⟩
          | none => exact absurd rfl hrun
      | none =>
        cases run with
        | some _ => exact ⟨_, rfl⟩
        | none => exact absurd rfl hrun
    · subst hcs
      exact ⟨_, rfl⟩
  · intro factory t d i run h cs conform r hok k v hmem
    unfold DatasetRef.new at hok
    split at hok
    · cases hok
    · obtain ⟨hchk, -⟩ := DatasetRef.mkResolved_shape hok
      exact checkComponents_ok hchk k v hmem

/-- C7 witness: constructing an unresolved ref with a run raises
`ValueError`, and the invariant instantiates on the ref produced by a
plain resolved construction. -/
theorem datasetRef_resolution_invariants_witness :
    (((some "r" : Option String) ≠ none ∨
        ∃ c ctl, (none : Option (List (String × DatasetRef)))
          = some (c :: ctl)) ∧
      ∃ msg, DatasetRef.new [] dt0 dRef none (some "r") none none false
        = Except.error (PyErr.valueError msg)) ∧
    (DatasetRef.new [] dt0 dRef (some 1) (some "r") none none false
        = Except.ok (DatasetRef.mk dt0 dRef (some 1) (some "r") none
          (some [])) ∧
      ((DatasetRef.mk dt0 dRef (some 1) (some "r") none
          (some [])).id = none ↔
        ((DatasetRef.mk dt0 dRef (some 1) (some "r") none
            (some [])).run = none ∧
          (DatasetRef.mk dt0 dRef (some 1) (some "r") none
            (some [])).components = none))) := by
  constructor
  · refine ⟨Or.inl (by simp), ?_⟩
    exact datasetRef_resolution_invariants.2.1 [] dt0 dRef (some "r") none
      none false trivial (Or.inl (by simp))
  · refine ⟨rfl, ?_⟩
    exact datasetRef_resolution_invariants.1 [] dt0 dRef (some 1)
      (some "r") none none false _ rfl

/-! ### C6 — TopologicalSet iteration

`core/utils.py` lines 180-274.  The node table `_nodes` is a dict from
element to `TopologicalSetNode(element, sourceElements)`; it is modelled
as an association list in insertion order, with the `sourceElements`
set modelled as a list.  `connect` requires both elements to be present
and rejects self-connections, so well-formed tables have unique keys
and source elements that are themselves keys.  `__iter__` recomputes
the ordering on each call (the cache assignment writes `self.ordering`
instead of `self._ordering`, so the memoisation never takes effect, but
the yielded sequence is unaffected) and delegates to
`_topologicalOrdering`, a depth-first search over `seen` / `finished`
sets that raises `ValueError("Cycle detected")` upon meeting an
in-progress node.  Python's unbounded recursion is modelled with a fuel
parameter, proved sufficient at `len(nodes) + 1`. -/

section TopologicalSet

variable {α : Type} [DecidableEq α]

/-- The key sequence of the node table (dict insertion order). -/
def keys (nodes : List (α × List α)) : List α := nodes.map Prod.fst

/-- The `sourceElements` of an element's node (empty for absent keys). -/
def sourcesOf (nodes : List (α × List α)) (a : α) : List α :=
  match nodes.find? (fun p => decide (p.1 = a)) with
  | some p => p.2
  | none => []

/-- Well-formedness maintained by the `TopologicalSet` API: the node
table is a dict (unique keys), and `connect` only links elements that
are already present. -/
def TopoWf (nodes : List (α × List α)) : Prop :=
  (keys nodes).Nodup ∧ ∀ p ∈ nodes, ∀ s ∈ p.2, s ∈ keys nodes

/-- The connection relation: `edge s t` holds when `s` was connected
into `t` (`s ∈ t.sourceElements`), i.e. `s` must be yielded before
`t`. -/
def edge (nodes : List (α × List α)) (s t : α) : Prop :=
  s ∈ sourcesOf nodes t

/-- Source elements of well-formed tables are keys. -/
theorem sourcesOf_subset {nodes : List (α × List α)} (hwf : TopoWf nodes)
    {a : α} : ∀ s ∈ sourcesOf nodes a, s ∈ keys nodes := by
  intro s hs
  unfold sourcesOf at hs
  split at hs
  · rename_i p hp
    exact hwf.2 p (List.mem_of_find?_eq_some hp) s hs
  · cases hs

/-- The target of an edge is a key. -/
theorem edge_target_mem {nodes : List (α × List α)} {s t : α}
    (h : edge nodes s t) : t ∈ keys nodes := by
  unfold edge sourcesOf at h
  split at h
  · rename_i p hp
    have hmem := List.mem_of_find?_eq_some hp
    have hpt := List.find?_some hp
    simp only [decide_eq_true_eq] at hpt
    exact hpt ▸ List.mem_map_of_mem Prod.fst hmem
  · cases h

/-- `x` is yielded strictly before `y` by the sequence `l`. -/
def precedes (l : List α) (x y : α) : Prop :=
  x ∈ l ∧ y ∈ l ∧ List.indexOf x l < List.indexOf y l

theorem precedes_append_right {l l' : List α} {x y : α}
    (h : precedes l x y) : precedes (l ++ l') x y := by
  obtain ⟨hx, hy, hlt⟩ := h
  refine ⟨List.mem_append_left _ hx, List.mem_append_left _ hy, ?_⟩
  rw [List.indexOf_append_of_mem hx, List.indexOf_append_of_mem hy]
  exact hlt

theorem precedes_append_last {l : List α} {x y : α}
    (hx : x ∈ l) (hy : y ∉ l) : precedes (l ++ [y]) x y := by
  refine ⟨List.mem_append_left _ hx,
    List.mem_append_right _ (List.mem_singleton_self y), ?_⟩
  rw [List.indexOf_append_of_mem hx, List.indexOf_append_of_not_mem hy]
  calc List.indexOf x l < l.length := List.indexOf_lt_length.2 hx
    _ ≤ l.length + List.indexOf y [y] := Nat.le_add_right _ _

theorem precedes_trans {l : List α} {x y z : α}
    (h1 : precedes l x y) (h2 : precedes l y z) : precedes l x z :=
  ⟨h1.1, h2.2.1, Nat.lt_trans h1.2.2 h2.2.2⟩

theorem precedes_irrefl {l : List α} {x : α} : ¬ precedes l x x := by
  intro h
  exact Nat.lt_irrefl _ h.2.2

/-- The mutable state of `_topologicalOrdering`: the `seen` set (as the
stack of in-progress elements, most recent first), the `finished` set,
and the output `order` list. -/
structure DfsState (α : Type) where
  seen : List α
  finished : List α
  order : List α

/-- Result of a (fuelled) traversal step: success, the
`ValueError("Cycle detected")` raise, or fuel exhaustion (which the
sufficiency theorem rules out). -/
inductive VisitRes (α : Type) where
  | ok (s : DfsState α)
  | cycleErr
  | fuelOut

mutual

/-- The inner `visit` of `_topologicalOrdering` (utils.py lines
260-270): finished nodes return immediately, in-progress nodes raise
the cycle error, otherwise the node is marked in-progress, its source
elements are visited, and the node is finished, removed from `seen` and
appended to the order. -/
def visit (nodes : List (α × List α)) :
    Nat → α → DfsState α → VisitRes α
  | 0, _, _ => .fuelOut
  | fuel + 1, a, s =>
    if a ∈ s.finished then .ok s
    else if a ∈ s.seen then .cycleErr
    else
      match visitList nodes fuel (sourcesOf nodes a)
          ⟨a :: s.seen, s.finished, s.order⟩ with
      | .ok s' => .ok ⟨s'.seen.erase a, a :: s'.finished, s'.order ++ [a]⟩
      | .cycleErr => .cycleErr
      | .fuelOut => .fuelOut

/-- Sequential visiting of a list of elements (the `for` loops of
utils.py lines 266-267 and 272-273), threading the state. -/
def visitList (nodes : List (α × List α)) :
    Nat → List α → DfsState α → VisitRes α
  | _, [], s => .ok s
  | fuel, b :: bs, s =>
    match visit nodes fuel b s with
    | .ok s' => visitList nodes fuel bs s'
    | .cycleErr => .cycleErr
    | .fuelOut => .fuelOut

end

/-- `TopologicalSet.__iter__` / `_topologicalOrdering`: visit every
node in table order starting from empty state and return the order, or
the `ValueError("Cycle detected")`; `none` stands for fuel exhaustion,
which never happens at fuel `len(nodes) + 1`. -/
def topologicalOrdering (nodes : List (α × List α)) :
    Option (Except String (List α)) :=
  match visitList nodes ((keys nodes).length + 1) (keys nodes)
      ⟨[], [], []⟩ with
  | .ok s => some (Except.ok s.order)
  | .cycleErr => some (Except.error "Cycle detected")
  | .fuelOut => none

mutual

/-- A successful `visit` leaves the `seen` set unchanged. -/
theorem visit_seen {nodes : List (α × List α)} :
    ∀ (fuel : Nat) (a : α) (s s' : DfsState α),
    visit nodes fuel a s = .ok s' → s'.seen = s.seen
  | 0, a, s, s' => by
    intro h
    unfold visit at h
    cases h
  | fuel + 1, a, s, s' => by
    intro h
    unfold visit at h
    split at h
    · injection h with h
      subst h
      rfl
    · split at h
      · cases h
      · cases hv : visitList nodes fuel (sourcesOf nodes a)
            ⟨a :: s.seen, s.finished, s.order⟩ with
        | ok s2 =>
          rw [hv] at h
          injection h with h
          subst h
          have h2 := visitList_seen fuel (sourcesOf nodes a) _ _ hv
          simp only [h2]
          exact List.erase_cons_head a s.seen
        | cycleErr => rw [hv] at h; cases h
        | fuelOut => rw [hv] at h; cases h

/-- A successful `visitList` leaves the `seen` set unchanged. -/
theorem visitList_seen {nodes : List (α × List α)} :
    ∀ (fuel : Nat) (l : List α) (s s' : DfsState α),
    visitList nodes fuel l s = .ok s' → s'.seen = s.seen
  | fuel, [], s, s' => by
    intro h
    unfold visitList at h
    injection h with h
    subst h
    rfl
  | fuel, b :: bs, s, s' => by
    intro h
    unfold visitList at h
    cases hv : visit nodes fuel b s with
    | ok s2 =>
      rw [hv] at h
      have h1 := visit_seen fuel b _ _ hv
      have h2 := visitList_seen fuel bs _ _ h
      rw [h2, h1]
    | cycleErr => rw [hv] at h; cases h
    | fuelOut => rw [hv] at h; cases h

end

/-- The invariant of the DFS output: the order is duplicate-free, lists
exactly the finished elements, contains only keys, and respects the
connections (every source element of an ordered element precedes it). -/
structure Inv (nodes : List (α × List α)) (s : DfsState α) : Prop where
  nodup : s.order.Nodup
  mem_iff : ∀ x, x ∈ s.finished ↔ x ∈ s.order
  sub_keys : ∀ x ∈ s.order, x ∈ keys nodes
  sorted : ∀ t ∈ s.order, ∀ src ∈ sourcesOf nodes t, precedes s.order src t

/-- What a successful traversal step guarantees relative to its start
state. -/
structure OkOut (nodes : List (α × List α)) (s s' : DfsState α) : Prop where
  seen_eq : s'.seen = s.seen
  inv : Inv nodes s'
  fin_mono : ∀ x ∈ s.finished, x ∈ s'.finished
  fin_new : ∀ x ∈ s'.finished, x ∈ s.finished ∨ x ∉ s.seen
  ord_ext : ∃ t, s'.order = s.order ++ t

mutual

/-- Invariant preservation for `visit`: on success the invariant still
holds, the visited element is finished, `seen` is restored, finished
only grows (and only by elements that were not in progress), and the
order is extended. -/
theorem visit_ok {nodes : List (α × List α)} (hwf : TopoWf nodes) :
    ∀ (fuel : Nat) (a : α) (s s' : DfsState α),
    a ∈ keys nodes → Inv nodes s →
    visit nodes fuel a s = .ok s' →
    OkOut nodes s s' ∧ a ∈ s'.finished
  | 0, a, s, s' => by
    intro _ _ h
    unfold visit at h
    cases h
  | fuel + 1, a, s, s' => by
    intro ha hinv h
    unfold visit at h
    split at h
    · rename_i hfin
      injection h with h
      subst h
      exact ⟨⟨rfl, hinv, fun x hx => hx, fun x hx => Or.inl hx,
        ⟨[], by simp⟩⟩, hfin⟩
    · rename_i hfin
      split at h
      · cases h
      · rename_i hseen
        cases hv : visitList nodes fuel (sourcesOf nodes a)
            ⟨a :: s.seen, s.finished, s.order⟩ with
        | cycleErr => rw [hv] at h; cases h
        | fuelOut => rw [hv] at h; cases h
        | ok s2 =>
          rw [hv] at h
          injection h with h
          subst h
          have hsrc : ∀ b ∈ sourcesOf nodes a, b ∈ keys nodes :=
            sourcesOf_subset hwf
          have hinv1 : Inv nodes ⟨a :: s.seen, s.finished, s.order⟩ :=
            ⟨hinv.nodup, hinv.mem_iff, hinv.sub_keys, hinv.sorted⟩
          obtain ⟨hout, hallfin⟩ :=
            visitList_ok hwf fuel (sourcesOf nodes a) _ _ hsrc hinv1 hv
          have hseen2 : s2.seen = a :: s.seen := hout.seen_eq
          have hafin2 : a ∉ s2.finished := by
            intro hmem
            rcases hout.fin_new a hmem with h1 | h1
            · exact hfin h1
            · exact h1 (List.mem_cons_self a s.seen)
          have haord2 : a ∉ s2.order :=
            fun hmem => hafin2 ((hout.inv.mem_iff a).mpr hmem)
          refine ⟨⟨?_, ⟨?_, ?_, ?_, ?_⟩, ?_, ?_, ?_⟩, ?_⟩
          · show s2.seen.erase a = s.seen
            rw [hseen2]
            exact List.erase_cons_head a s.seen
          · show (s2.order ++ [a]).Nodup
            simp [List.nodup_append, hout.inv.nodup, haord2]
          · intro x
            show x ∈ a :: s2.finished ↔ x ∈ s2.order ++ [a]
            simp only [List.mem_cons, List.mem_append,
              List.mem_singleton, hout.inv.mem_iff x]
            tauto
          · intro x hx
            rcases List.mem_append.mp hx with h1 | h1
            · exact hout.inv.sub_keys x h1
            · rw [List.mem_singleton.mp h1]
              exact ha
          · intro t ht src hsrcmem
            rcases List.mem_append.mp ht with h1 | h1
            · exact precedes_append_right (hout.inv.sorted t h1 src hsrcmem)
            · rw [List.mem_singleton.mp h1] at hsrcmem ⊢
              have hsf : src ∈ s2.finished := hallfin src hsrcmem
              have hso : src ∈ s2.order := (hout.inv.mem_iff src).mp hsf
              exact precedes_append_last hso haord2
          · intro x hx
            exact List.mem_cons_of_mem a (hout.fin_mono x hx)
          · intro x hx
            rcases List.mem_cons.mp hx with h1 | h1
            · subst h1
              exact Or.inr hseen
            · rcases hout.fin_new x h1 with h2 | h2
              · exact Or.inl h2
              · exact Or.inr (fun hc => h2 (List.mem_cons_of_mem a hc))
          · obtain ⟨t1, ht1⟩ := hout.ord_ext
            exact ⟨t1 ++ [a], by rw [ht1, List.append_assoc]⟩
          · exact List.mem_cons_self a s2.finished

/-- Invariant preservation for `visitList`; additionally every listed
element ends up finished. -/
theorem visitList_ok {nodes : List (α × List α)} (hwf : TopoWf nodes) :
    ∀ (fuel : Nat) (l : List α) (s s' : DfsState α),
    (∀ b ∈ l, b ∈ keys nodes) → Inv nodes s →
    visitList nodes fuel l s = .ok s' →
    OkOut nodes s s' ∧ ∀ b ∈ l, b ∈ s'.finished
  | fuel, [], s, s' => by
    intro _ hinv h
    unfold visitList at h
    injection h with h
    subst h
    refine ⟨⟨rfl, hinv, fun x hx => hx, fun x hx => Or.inl hx,
      ⟨[], by simp⟩⟩, ?_⟩
    intro b hb
    cases hb
  | fuel, b :: bs, s, s' => by
    intro hl hinv h
    unfold visitList at h
    cases hv : visit nodes fuel b s with
    | cycleErr => rw [hv] at h; cases h
    | fuelOut => rw [hv] at h; cases h
    | ok s2 =>
      rw [hv] at h
      obtain ⟨hout1, hbfin⟩ :=
        visit_ok hwf fuel b s s2 (hl b (List.mem_cons_self b bs)) hinv hv
      obtain ⟨hout2, hrest⟩ :=
        visitList_ok hwf fuel bs s2 s'
          (fun x hx => hl x (List.mem_cons_of_mem b hx)) hout1.inv h
      refine ⟨⟨?_, hout2.inv, ?_, ?_, ?_⟩, ?_⟩
      · rw [hout2.seen_eq, hout1.seen_eq]
      · exact fun x hx => hout2.fin_mono x (hout1.fin_mono x hx)
      · intro x hx
        rcases hout2.fin_new x hx with h1 | h1
        · rcases hout1.fin_new x h1 with h2 | h2
          · exact Or.inl h2
          · exact Or.inr h2
        · rw [hout1.seen_eq] at h1
          exact Or.inr h1
      · obtain ⟨t1, ht1⟩ := hout1.ord_ext
        obtain ⟨t2, ht2⟩ := hout2.ord_ext
        exact ⟨t1 ++ t2, by rw [ht2, ht1, List.append_assoc]⟩
      · intro x hx
        rcases List.mem_cons.mp hx with h1 | h1
        · subst h1
          exact hout2.fin_mono x hbfin
        · exact hrest x h1

end

mutual

/-- Fuel sufficiency for `visit`: as long as the remaining fuel exceeds
the number of keys not yet in progress, the traversal cannot run out of
fuel — the `seen` stack grows by one distinct key per recursion level. -/
theorem visit_fuel {nodes : List (α × List α)} (hwf : TopoWf nodes) :
    ∀ (fuel : Nat) (a : α) (s : DfsState α),
    s.seen.Nodup → (∀ x ∈ s.seen, x ∈ keys nodes) → a ∈ keys nodes →
    (keys nodes).length + 1 ≤ fuel + s.seen.length →
    visit nodes fuel a s ≠ .fuelOut
  | 0, a, s => by
    intro hnd hsub ha hle
    exfalso
    have h1 : s.seen.length ≤ (keys nodes).length :=
      (List.subperm_of_subset hnd (fun x hx => hsub x hx)).length_le
    omega
  | fuel + 1, a, s => by
    intro hnd hsub ha hle h
    unfold visit at h
    split at h
    · cases h
    · split at h
      · cases h
      · rename_i hfin hseen
        cases hv : visitList nodes fuel (sourcesOf nodes a)
            ⟨a :: s.seen, s.finished, s.order⟩ with
        | ok s2 => rw [hv] at h; cases h
        | cycleErr => rw [hv] at h; cases h
        | fuelOut =>
          refine visitList_fuel hwf fuel (sourcesOf nodes a) _ ?_ ?_ ?_ ?_ hv
          · exact List.nodup_cons.mpr ⟨hseen, hnd⟩
          · intro x hx
            rcases List.mem_cons.mp hx with h1 | h1
            · subst h1
              exact ha
            · exact hsub x h1
          · exact sourcesOf_subset hwf
          · simp only [List.length_cons]
            omega

/-- Fuel sufficiency for `visitList`. -/
theorem visitList_fuel {nodes : List (α × List α)} (hwf : TopoWf nodes) :
    ∀ (fuel : Nat) (l : List α) (s : DfsState α),
    s.seen.Nodup → (∀ x ∈ s.seen, x ∈ keys nodes) →
    (∀ b ∈ l, b ∈ keys nodes) →
    (keys nodes).length + 1 ≤ fuel + s.seen.length →
    visitList nodes fuel l s ≠ .fuelOut
  | fuel, [], s => by
    intro _ _ _ _ h
    unfold visitList at h
    cases h
  | fuel, b :: bs, s => by
    intro hnd hsub hl hle h
    unfold visitList at h
    cases hv : visit nodes fuel b s with
    | ok s2 =>
      rw [hv] at h
      have hseen := visit_seen fuel b s s2 hv
      refine visitList_fuel hwf fuel bs s2 ?_ ?_ ?_ ?_ h
      · rw [hseen]
        exact hnd
      · rw [hseen]
        exact hsub
      · exact fun x hx => hl x (List.mem_cons_of_mem b hx)
      · rw [hseen]
        exact hle
    | cycleErr => rw [hv] at h; cases h
    | fuelOut =>
      exact visit_fuel hwf fuel b s hnd hsub
        (hl b (List.mem_cons_self b bs)) hle hv

end

omit [DecidableEq α] in
/-- Along a chain whose head is `h`, every member is `h` itself or
reachable from `h` by the chain relation. -/
theorem chain_head_transGen {R : α → α → Prop} :
    ∀ {l : List α} {h x : α}, List.Chain' R l → l.head? = some h →
    x ∈ l → x = h ∨ Relation.TransGen R h x := by
  intro l
  induction l with
  | nil =>
    intro h x _ _ hx
    cases hx
  | cons h0 t ih =>
    intro h x hch hh hx
    injection hh with hh
    subst hh
    rcases List.mem_cons.mp hx with h1 | h1
    · exact Or.inl h1
    · cases t with
      | nil => cases h1
      | cons y t' =>
        have hch' := List.chain'_cons.mp hch
        rcases ih hch'.2 rfl h1 with h2 | h2
        · subst h2
          exact Or.inr (Relation.TransGen.single hch'.1)
        · exact Or.inr (Relation.TransGen.head hch'.1 h2)

mutual

/-- If `visit` raises the cycle error then the connection relation has
a cycle: the `seen` stack is a chain of edges, and meeting an
in-progress element closes it. -/
theorem visit_cycle {nodes : List (α × List α)} :
    ∀ (fuel : Nat) (a : α) (s : DfsState α),
    List.Chain' (edge nodes) s.seen →
    (∀ h ∈ s.seen.head?, edge nodes a h) →
    visit nodes fuel a s = .cycleErr →
    ∃ x, Relation.TransGen (edge nodes) x x
  | 0, a, s => by
    intro _ _ h
    unfold visit at h
    cases h
  | fuel + 1, a, s => by
    intro hch hhead h
    unfold visit at h
    split at h
    · cases h
    · split at h
      · rename_i hfin hseen
        cases hs : s.seen with
        | nil =>
          rw [hs] at hseen
          cases hseen
        | cons h0 t =>
          have hah : edge nodes a h0 := by
            apply hhead h0
            rw [hs]
            rfl
          have hmem : a ∈ s.seen := hseen
          rw [hs] at hch hmem
          rcases chain_head_transGen hch rfl hmem with h1 | h1
          · subst h1
            exact ⟨a, Relation.TransGen.single hah⟩
          · exact ⟨a, Relation.TransGen.head hah h1⟩
      · rename_i hfin hseen
        cases hv : visitList nodes fuel (sourcesOf nodes a)
            ⟨a :: s.seen, s.finished, s.order⟩ with
        | ok s2 => rw [hv] at h; cases h
        | fuelOut => rw [hv] at h; cases h
        | cycleErr =>
          refine visitList_cycle fuel (sourcesOf nodes a) _ ?_ ?_ hv
          · exact List.chain'_cons'.mpr ⟨fun y hy => hhead y hy, hch⟩
          · intro b hb h0 hh0
            injection hh0 with hh0
            subst hh0
            exact hb

/-- If `visitList` raises the cycle error then the connection relation
has a cycle. -/
theorem visitList_cycle {nodes : List (α × List α)} :
    ∀ (fuel : Nat) (l : List α) (s : DfsState α),
    List.Chain' (edge nodes) s.seen →
    (∀ b ∈ l, ∀ h ∈ s.seen.head?, edge nodes b h) →
    visitList nodes fuel l s = .cycleErr →
    ∃ x, Relation.TransGen (edge nodes) x x
  | fuel, [], s => by
    intro _ _ h
    unfold visitList at h
    cases h
  | fuel, b :: bs, s => by
    intro hch hl h
    unfold visitList at h
    cases hv : visit nodes fuel b s with
    | ok s2 =>
      rw [hv] at h
      have hseen := visit_seen fuel b s s2 hv
      refine visitList_cycle fuel bs s2 ?_ ?_ h
      · rw [hseen]
        exact hch
      · rw [hseen]
        exact fun x hx => hl x (List.mem_cons_of_mem b hx)
    | cycleErr =>
      exact visit_cycle fuel b s hch (hl b (List.mem_cons_self b bs)) hv
    | fuelOut => rw [hv] at h; cases h

end

/-- A topologically sorted complete order witnesses acyclicity. -/
theorem order_acyclic {nodes : List (α × List α)} {order : List α}
    (hperm : ∀ x, x ∈ order ↔ x ∈ keys nodes)
    (hsorted : ∀ t ∈ order, ∀ src ∈ sourcesOf nodes t,
      precedes order src t) :
    ∀ x, ¬ Relation.TransGen (edge nodes) x x := by
  intro x hx
  have hstep : ∀ a b, edge nodes a b → precedes order a b := by
    intro a b hab
    exact hsorted b ((hperm b).mpr (edge_target_mem hab)) a hab
  have htrans : Transitive (precedes order) :=
    fun _ _ _ h1 h2 => precedes_trans h1 h2
  have h2 : Relation.TransGen (precedes order) x x :=
    Relation.TransGen.mono (fun a b hab => hstep a b hab) hx
  rw [Relation.transGen_eq_self htrans] at h2
  exact precedes_irrefl h2

/-- C6: for a well-formed `TopologicalSet`, iteration terminates; when
the connect-edges are acyclic it yields an order that is a permutation
of the elements (each exactly once) in which every `sourceElement` of a
node is yielded before that node; and when the edges contain a cycle it
raises `ValueError("Cycle detected")` instead of yielding any
(partial) order. -/
theorem topologicalSet_iter_correct (nodes : List (α × List α))
    (hwf : TopoWf nodes) :
    (∀ order, topologicalOrdering nodes = some (Except.ok order) →
      order.Perm (keys nodes) ∧
      (∀ t ∈ keys nodes, ∀ src ∈ sourcesOf nodes t,
        precedes order src t)) ∧
    ((∀ x, ¬ Relation.TransGen (edge nodes) x x) →
      ∃ order, topologicalOrdering nodes = some (Except.ok order)) ∧
    ((∃ x, Relation.TransGen (edge nodes) x x) →
      topologicalOrdering nodes = some (Except.error "Cycle detected")) := by
  have hinit : Inv nodes ⟨[], [], []⟩ := by
    refine ⟨List.nodup_nil, ?_, ?_, ?_⟩
    · intro x
      constructor
      · intro hx
        cases hx
      · intro hx
        cases hx
    · intro x hx
      cases hx
    · intro t ht
      cases ht
  cases hrun : visitList nodes ((keys nodes).length + 1) (keys nodes)
      ⟨[], [], []⟩ with
  | fuelOut =>
    exfalso
    refine visitList_fuel hwf _ (keys nodes) _ List.nodup_nil ?_
      (fun b hb => hb) ?_ hrun
    · intro x hx
      cases hx
    · simp
  | ok sfin =>
    obtain ⟨hout, hall⟩ :=
      visitList_ok hwf _ (keys nodes) _ sfin (fun b hb => hb) hinit hrun
    have hperm : ∀ x, x ∈ sfin.order ↔ x ∈ keys nodes := by
      intro x
      constructor
      · exact hout.inv.sub_keys x
      · intro hx
        exact (hout.inv.mem_iff x).mp (hall x hx)
    have hpermL : sfin.order.Perm (keys nodes) :=
      (List.perm_ext_iff_of_nodup hout.inv.nodup hwf.1).mpr hperm
    refine ⟨?_, ?_, ?_⟩
    · intro order ho
      unfold topologicalOrdering at ho
      rw [hrun] at ho
      injection ho with ho
      injection ho with ho
      subst ho
      refine ⟨hpermL, ?_⟩
      intro t ht src hs
      exact hout.inv.sorted t ((hperm t).mpr ht) src hs
    · intro _
      refine ⟨sfin.order, ?_⟩
      unfold topologicalOrdering
      rw [hrun]
    · intro hcyc
      obtain ⟨x, hx⟩ := hcyc
      exact absurd hx (order_acyclic hperm hout.inv.sorted x)
  | cycleErr =>
    have hcyc : ∃ x, Relation.TransGen (edge nodes) x x := by
      refine visitList_cycle _ (keys nodes) _ ?_ ?_ hrun
      · exact List.chain'_nil
      · intro b hb h hh
        cases hh
    refine ⟨?_, ?_, ?_⟩
    · intro order ho
      unfold topologicalOrdering at ho
      rw [hrun] at ho
      injection ho with ho
      cases ho
    · intro hacyc
      obtain ⟨x, hx⟩ := hcyc
      exact (hacyc x hx).elim
    · intro _
      unfold topologicalOrdering
      rw [hrun]

/-- A concrete acyclic two-node table: 2 depends on 1. -/
def exNodes : List (Nat × List Nat) := [(1, []), (2, [1])]

/-- C6 witness: the correctness theorem instantiated on `exNodes`. -/
theorem topologicalSet_iter_correct_witness :
    TopoWf exNodes ∧
    ((∀ x, ¬ Relation.TransGen (edge exNodes) x x) →
      ∃ order, topologicalOrdering exNodes = some (Except.ok order)) := by
  have hwf : TopoWf exNodes := by
    constructor
    · decide
    · decide
  exact ⟨hwf, (topologicalSet_iter_correct exNodes hwf).2.1⟩

end TopologicalSet

/-! ### C10 — OracleDatabase.replace -/

section OracleReplace

variable {κ ν : Type} [DecidableEq κ]

/-- Look up a row by its primary-key values. -/
def pkLookup (table : List (κ × ν)) (k : κ) : Option ν :=
  (table.find? (fun r => decide (r.1 = k))).map (fun r => r.2)

/-- One source row of the MERGE emitted by `_merge` (oracle.py lines
48-90): the table is joined to the row on the primary-key columns;
`WHEN MATCHED` the non-key columns of the matching rows are updated,
`WHEN NOT MATCHED` the row is inserted.  A table row is modelled as its
primary-key part paired with its non-key part. -/
def mergeRow (table : List (κ × ν)) (row : κ × ν) : List (κ × ν) :=
  if (table.find? (fun r => decide (r.1 = row.1))).isSome then
    table.map (fun r => if r.1 = row.1 then (r.1, row.2) else r)
  else
    table ++ [row]

/-- The MERGE over all supplied rows, one statement. -/
def mergeRows (table : List (κ × ν)) (rows : List (κ × ν)) :
    List (κ × ν) :=
  rows.foldl mergeRow table

/-- The writeable flag of an `OracleDatabase` connection. -/
structure OracleDatabase where
  _writeable : Bool

/-- `OracleDatabase.isWriteable` (oracle.py lines 170-171). -/
def OracleDatabase.isWriteable (db : OracleDatabase) : Bool :=
  db._writeable

/-- `OracleDatabase.replace` (oracle.py lines 204-207): raise
`ReadOnlyDatabaseError` before touching the table when the connection
is not writeable, else execute the MERGE.  Returns the table as seen
after the call along with the outcome. -/
def OracleDatabase.replace (db : OracleDatabase)
    (table : List (κ × ν)) (rows : List (κ × ν)) :
    List (κ × ν) × Except PyErr Unit :=
  if ¬ db.isWriteable then (table, Except.error PyErr.readOnlyDatabase)
  else (mergeRows table rows, Except.ok ())

/-- The single-row MERGE is an upsert keyed on the primary key: the
merged row's key now maps to its non-key part, and every other key maps
to exactly what it mapped to before. -/
theorem pkLookup_mergeRow (table : List (κ × ν)) (row : κ × ν) (k : κ) :
    pkLookup (mergeRow table row) k =
      if k = row.1 then some row.2 else pkLookup table k := by
  unfold mergeRow
  by_cases hpre : (table.find? (fun r => decide (r.1 = row.1))).isSome
  · rw [if_pos hpre]
    unfold pkLookup
    rw [List.find?_map]
    have hcomp : ((fun r : κ × ν => decide (r.1 = k)) ∘
        (fun r : κ × ν => if r.1 = row.1 then (r.1, row.2) else r)) =
        fun r : κ × ν => decide (r.1 = k) := by
      funext r
      by_cases h : r.1 = row.1
      · simp [h]
      · simp [h]
    rw [hcomp]
    by_cases hk : k = row.1
    · rw [if_pos hk]
      cases hf : table.find? (fun r => decide (r.1 = k)) with
      | none =>
        exfalso
        rw [hk] at hf
        rw [hf] at hpre
        simp at hpre
      | some r0 =>
        have hr0 : r0.1 = k := by simpa using List.find?_some hf
        simp [hf, hr0, hk]
    · rw [if_neg hk]
      cases hf : table.find? (fun r => decide (r.1 = k)) with
      | none => simp [hf, pkLookup]
      | some r0 =>
        have hr0 : r0.1 = k := by simpa using List.find?_some hf
        have hne : r0.1 ≠ row.1 := by
          rw [hr0]
          exact hk
        simp [hf, pkLookup, hne]
  · rw [if_neg hpre]
    unfold pkLookup
    rw [List.find?_append]
    have hnone : table.find? (fun r => decide (r.1 = row.1)) = none :=
      Option.not_isSome_iff_eq_none.mp hpre
    by_cases hk : k = row.1
    · subst hk
      rw [hnone]
      simp
    · cases hf : table.find? (fun r => decide (r.1 = k)) with
      | none =>
        simp [Ne.symm hk, hk]
      | some r0 =>
        simp [hk]

/-- C10: `replace` on a non-writeable connection raises
`ReadOnlyDatabaseError` and performs no write; on a writeable
connection it returns success and executes the MERGE upsert, under
which a row with an absent primary key is inserted, a row with a
present primary key has its non-key columns updated, and every other
key's row is untouched; any error leaves the table unchanged. -/
theorem replace_readonly_and_upsert :
    (∀ (db : OracleDatabase) (table rows : List (κ × ν)),
      db.isWriteable = false →
      db.replace table rows = (table, Except.error PyErr.readOnlyDatabase)) ∧
    (∀ (db : OracleDatabase) (table rows : List (κ × ν)),
      db.isWriteable = true →
      db.replace table rows = (mergeRows table rows, Except.ok ())) ∧
    (∀ (db : OracleDatabase) (table rows : List (κ × ν)) (e : PyErr),
      (db.replace table rows).2 = Except.error e →
      (db.replace table rows).1 = table) ∧
    (∀ (table : List (κ × ν)) (row : κ × ν) (k : κ),
      pkLookup (mergeRow table row) k =
        if k = row.1 then some row.2 else pkLookup table k) ∧
    (∀ (table : List (κ × ν)) (row : κ × ν),
      (pkLookup table row.1 = none → mergeRow table row = table ++ [row]) ∧
      ((pkLookup table row.1).isSome →
        (mergeRow table row).length = table.length)) := by
  refine ⟨?_, ?_, ?_, pkLookup_mergeRow, ?_⟩
  · intro db table rows hw
    unfold OracleDatabase.replace
    rw [hw]
    simp
  · intro db table rows hw
    unfold OracleDatabase.replace
    rw [hw]
    simp
  · intro db table rows e herr
    unfold OracleDatabase.replace at herr ⊢
    by_cases hw : db.isWriteable
    · rw [if_neg (by simp [hw])] at herr
      cases herr
    · rw [if_pos (by simp [hw])]
  · intro table row
    constructor
    · intro habs
      unfold mergeRow
      have : table.find? (fun r => decide (r.1 = row.1)) = none := by
        unfold pkLookup at habs
        exact Option.map_eq_none.mp habs
      rw [this]
      simp
    · intro hsome
      unfold mergeRow
      have : (table.find? (fun r => decide (r.1 = row.1))).isSome := by
        unfold pkLookup at hsome
        simpa using hsome
      rw [if_pos this]
      exact List.length_map table _

/-- C10 witness: a read-only connection refuses the call and a
writeable one updates the present key and inserts the absent one. -/
theorem replace_readonly_and_upsert_witness :
    ((OracleDatabase.mk false).isWriteable = false ∧
      (OracleDatabase.mk false).replace
          [((1 : Nat), DVal.s "a")] [(1, DVal.s "b")] =
        ([(1, DVal.s "a")], Except.error PyErr.readOnlyDatabase)) ∧
    ((OracleDatabase.mk true).isWriteable = true ∧
      (OracleDatabase.mk true).replace
          [((1 : Nat), DVal.s "a")] [(1, DVal.s "b"), (2, DVal.s "c")] =
        ([(1, DVal.s "b"), (2, DVal.s "c")], Except.ok ())) := by
  constructor
  · exact ⟨rfl, replace_readonly_and_upsert.1 (OracleDatabase.mk false)
      [((1 : Nat), DVal.s "a")] [(1, DVal.s "b")] rfl⟩
  · refine ⟨rfl, ?_⟩
    have h := replace_readonly_and_upsert.2.1 (OracleDatabase.mk true)
      [((1 : Nat), DVal.s "a")] [(1, DVal.s "b"), (2, DVal.s "c")] rfl
    rw [h]
    rfl

end OracleReplace

/-! ### C4 — nested transactions -/

section NestedTransaction

variable {ρ : Type} [DecidableEq ρ]

/-- Modelled from the spec: the statements of the nested-transaction
scenario (`Database.transaction` lives in `registry/interfaces.py`,
which is not among the provided sources; the Oracle override in src
only delegates to it).  A statement either inserts a row into a
uniqueness-constrained table (a duplicate raises the backend integrity
error, as in `testNestedTransaction`) or runs a nested transaction
scope whose failure is caught by the enclosing code. -/
inductive Stmt (ρ : Type) where
  | insertRow (r : ρ)
  | caughtTx (body : List (Stmt ρ))

mutual

/-- Modelled from the spec (§4.4): execute one statement against the
table; `none` models an exception unwinding out of the statement.  A
nested scope takes a savepoint on entry; if its body fails, the
statements issued inside it are rolled back to that savepoint and the
(caught) exception does not propagate further. -/
def execStmt : Stmt ρ → List ρ → Option (List ρ)
  | .insertRow r, db => if r ∈ db then none else some (db ++ [r])
  | .caughtTx body, db =>
    match execStmts body db with
    | some db' => some db'
    | none => some db

/-- Execute a statement sequence, stopping at the first exception. -/
def execStmts : List (Stmt ρ) → List ρ → Option (List ρ)
  | [], db => some db
  | st :: rest, db =>
    match execStmt st db with
    | some db' => execStmts rest db'
    | none => none

end

/-- Modelled from the spec (§4.4): a whole transaction scope commits
its final state on normal exit and restores the entry state when an
exception escapes it. -/
def transaction (body : List (Stmt ρ)) (db : List ρ) : List ρ × Bool :=
  match execStmts body db with
  | some db' => (db', true)
  | none => (db, false)

/-- Unfolding equation for `execStmts` on a cons cell. -/
theorem execStmts_cons (st : Stmt ρ) (rest : List (Stmt ρ)) (db : List ρ) :
    execStmts (st :: rest) db =
      match execStmt st db with
      | some db' => execStmts rest db'
      | none => none := rfl

/-- Statement sequences execute left to right. -/
theorem execStmts_append (l1 l2 : List (Stmt ρ)) :
    ∀ db, execStmts (l1 ++ l2) db =
      match execStmts l1 db with
      | some db' => execStmts l2 db'
      | none => none := by
  induction l1 with
  | nil =>
    intro db
    rfl
  | cons st rest ih =>
    intro db
    show execStmts (st :: (rest ++ l2)) db = _
    rw [execStmts_cons st (rest ++ l2) db, execStmts_cons st rest db]
    cases hst : execStmt st db with
    | some db' => exact ih db'
    | none => rfl

mutual

/-- Insertions only append rows. -/
theorem execStmt_prefix :
    ∀ (st : Stmt ρ) (db db' : List ρ), execStmt st db = some db' →
    ∃ t, db' = db ++ t
  | .insertRow r, db, db' => by
    intro h
    unfold execStmt at h
    split at h
    · cases h
    · injection h with h
      exact ⟨[r], h.symm⟩
  | .caughtTx body, db, db' => by
    intro h
    unfold execStmt at h
    cases hb : execStmts body db with
    | some db2 =>
      rw [hb] at h
      injection h with h
      rw [← h]
      exact execStmts_prefix body db db2 hb
    | none =>
      rw [hb] at h
      injection h with h
      exact ⟨[], by simp [h]⟩

/-- Statement sequences only append rows. -/
theorem execStmts_prefix :
    ∀ (l : List (Stmt ρ)) (db db' : List ρ), execStmts l db = some db' →
    ∃ t, db' = db ++ t
  | [], db, db' => by
    intro h
    injection h with h
    exact ⟨[], by simp [h]⟩
  | st :: rest, db, db' => by
    intro h
    unfold execStmts at h
    cases hst : execStmt st db with
    | some db2 =>
      rw [hst] at h
      obtain ⟨t1, ht1⟩ := execStmt_prefix st db db2 hst
      obtain ⟨t2, ht2⟩ := execStmts_prefix rest db2 db' h
      exact ⟨t1 ++ t2, by rw [ht2, ht1, List.append_assoc]⟩
    | none =>
      rw [hst] at h
      cases h

end

/-- C4: when the work before an inner scope succeeds (state `db1`, the
inner savepoint) and the inner scope's body fails, the enclosing
transaction commits exactly `db1`: the inner statements are rolled back
to the inner savepoint only, the outer work stays intact and
committable, and every row present at the savepoint — in particular all
rows inserted by the outer prefix — is visible after the outer commit. -/
theorem nested_transaction_rollback (pre inner : List (Stmt ρ))
    (db0 db1 : List ρ)
    (hpre : execStmts pre db0 = some db1)
    (hinner : execStmts inner db1 = none) :
    transaction (pre ++ [Stmt.caughtTx inner]) db0 = (db1, true) ∧
    (∃ t, db1 = db0 ++ t) ∧
    ∀ r ∈ db1, r ∈ (transaction (pre ++ [Stmt.caughtTx inner]) db0).1 := by
  have hrun : execStmts (pre ++ [Stmt.caughtTx inner]) db0 = some db1 := by
    rw [execStmts_append]
    rw [hpre]
    show execStmts [Stmt.caughtTx inner] db1 = some db1
    unfold execStmts execStmt
    rw [hinner]
    rfl
  refine ⟨?_, execStmts_prefix pre db0 db1 hpre, ?_⟩
  · unfold transaction
    rw [hrun]
  · intro r hr
    unfold transaction
    rw [hrun]
    exact hr

/-- C4 witness: the `testNestedTransaction` scenario — insert `1`
outside, then a failing inner scope that inserts `2` and then
duplicates `1`; the commit contains `1` and not `2`. -/
theorem nested_transaction_rollback_witness :
    execStmts [Stmt.insertRow (1 : Nat)] [] = some [1] ∧
    execStmts [Stmt.insertRow (2 : Nat), Stmt.insertRow 1] [1] = none ∧
    transaction [Stmt.insertRow (1 : Nat),
        Stmt.caughtTx [Stmt.insertRow 2, Stmt.insertRow 1]] [] = ([1], true) ∧
    (1 : Nat) ∈ ([1] : List Nat) ∧ (2 : Nat) ∉ ([1] : List Nat) := by
  have h := nested_transaction_rollback
    [Stmt.insertRow (1 : Nat)] [Stmt.insertRow 2, Stmt.insertRow 1]
    [] [1] (by decide) (by decide)
  exact ⟨by decide, by decide, h.1, by decide, by decide⟩

end NestedTransaction

/-! ### C5 and C3 — Registry operations (modelled from the spec) -/

/-- Modelled from the spec: the Registry state touched by
`registerDatasetType` and `insertDatasets` (the `SqlRegistry`
implementation is not among the provided sources — only its tests and
database backends are).  `datasetTypes` models the dataset_type table,
`datasets` the dataset table as (id, dataset-type name, standardized
data ID) rows, `memberships` the dataset_collection table as
(collection, dataset id) rows, and `nextId` the id sequence. -/
structure RegistryState where
  datasetTypes : List DatasetType
  datasets : List (Nat × String × DataId)
  memberships : List (String × Nat)
  nextId : Nat

/-- Modelled from the spec (§4.5): `registerDatasetType` inserts a new
definition and returns `True` when the name is absent; an identical
existing definition (under `DatasetType.__eq__`) is a no-op returning
`False`; a differing definition with the same name raises
`ConflictingDefinitionError`.  Existing rows are never modified. -/
def registerDatasetType (s : RegistryState) (t : DatasetType) :
    Except PyErr (Bool × RegistryState) :=
  match s.datasetTypes.find? (fun u => decide (u._name = t._name)) with
  | none =>
    Except.ok (true, { s with datasetTypes := s.datasetTypes ++ [t] })
  | some u =>
    if DatasetType.eqPy u t then Except.ok (false, s)
    else Except.error PyErr.conflictingDefinition

/-- C5: registering a dataset type returns `true` and appends the
definition when the name is new, returns `false` and changes nothing
when an identical definition exists, raises
`ConflictingDefinitionError` when a differing same-named definition
exists, and never mutates or drops an existing definition. -/
theorem registerDatasetType_contract (s : RegistryState) (t : DatasetType) :
    (s.datasetTypes.find? (fun u => decide (u._name = t._name)) = none →
      registerDatasetType s t = Except.ok (true,
        { s with datasetTypes := s.datasetTypes ++ [t] })) ∧
    (∀ u, s.datasetTypes.find? (fun u => decide (u._name = t._name)) = some u →
      DatasetType.eqPy u t = true →
      registerDatasetType s t = Except.ok (false, s)) ∧
    (∀ u, s.datasetTypes.find? (fun u => decide (u._name = t._name)) = some u →
      DatasetType.eqPy u t = false →
      registerDatasetType s t = Except.error PyErr.conflictingDefinition) ∧
    (∀ b s', registerDatasetType s t = Except.ok (b, s') →
      (s'.datasetTypes = s.datasetTypes ∨
        s'.datasetTypes = s.datasetTypes ++ [t]) ∧
      ∀ u ∈ s.datasetTypes, u ∈ s'.datasetTypes) := by
  have h1 : s.datasetTypes.find? (fun u => decide (u._name = t._name)) = none →
      registerDatasetType s t = Except.ok (true,
        { s with datasetTypes := s.datasetTypes ++ [t] }) := by
    intro hf
    unfold registerDatasetType
    rw [hf]
  have h2 : ∀ u, s.datasetTypes.find? (fun u => decide (u._name = t._name))
      = some u → DatasetType.eqPy u t = true →
      registerDatasetType s t = Except.ok (false, s) := by
    intro u hf heq
    unfold registerDatasetType
    rw [hf]
    simp [heq]
  have h3 : ∀ u, s.datasetTypes.find? (fun u => decide (u._name = t._name))
      = some u → DatasetType.eqPy u t = false →
      registerDatasetType s t = Except.error PyErr.conflictingDefinition := by
    intro u hf heq
    unfold registerDatasetType
    rw [hf]
    simp [heq]
  refine ⟨h1, h2, h3, ?_⟩
  intro b s' hok
  cases hf : s.datasetTypes.find? (fun u => decide (u._name = t._name)) with
  | none =>
    rw [h1 hf] at hok
    injection hok with hok
    injection hok with hb hs'
    subst hs'
    constructor
    · right
      rfl
    · intro u hu
      exact List.mem_append_left _ hu
  | some u =>
    by_cases heq : DatasetType.eqPy u t = true
    · rw [h2 u hf heq] at hok
      injection hok with hok
      injection hok with hb hs'
      subst hs'
      constructor
      · left
        rfl
      · intro v hv
        exact hv
    · rw [h3 u hf (eq_false_of_ne_true heq)] at hok
      cases hok

/-- C5 witness: first-time registration returns `true`; identical
re-registration returns `false` and leaves the state unchanged. -/
theorem registerDatasetType_contract_witness :
    ((RegistryState.mk [] [] [] 0).datasetTypes.find?
        (fun u => decide (u._name = dtA._name)) = none ∧
      registerDatasetType (RegistryState.mk [] [] [] 0) dtA =
        Except.ok (true, RegistryState.mk [dtA] [] [] 0)) ∧
    ((RegistryState.mk [dtA] [] [] 0).datasetTypes.find?
        (fun u => decide (u._name = dtA._name)) = some dtA ∧
      DatasetType.eqPy dtA dtA = true ∧
      registerDatasetType (RegistryState.mk [dtA] [] [] 0) dtA =
        Except.ok (false, RegistryState.mk [dtA] [] [] 0)) := by
  constructor
  · exact ⟨rfl,
      (registerDatasetType_contract (RegistryState.mk [] [] [] 0) dtA).1 rfl⟩
  · refine ⟨rfl, rfl, ?_⟩
    exact (registerDatasetType_contract
      (RegistryState.mk [dtA] [] [] 0) dtA).2.1 dtA rfl rfl

/-- Modelled from the spec (§4.5): the conflict predicate of
`insertDatasets` — some dataset row with the same dataset-type name and
the same standardized data ID is already a member of the run. -/
def conflictsInRun (s : RegistryState) (t : DatasetType) (d : DataId)
    (run : String) : Bool :=
  s.datasets.any (fun row =>
    decide (row.2.1 = t._name) && decide (row.2.2 = d) &&
      s.memberships.any (fun m => decide (m = (run, row.1))))

/-- Modelled from the spec (§4.5): insert one dataset — standardize the
data ID against the type's dimensions, raise
`ConflictingDefinitionError` when (type, dataId) is already present in
the run, else add a dataset row with a fresh globally-unique id plus a
membership row for the run. -/
def insertOneDataset (s : RegistryState) (t : DatasetType) (d : DataId)
    (run : String) : Except PyErr (RegistryState × Nat) :=
  match standardize d t._dimensions with
  | Except.error e => Except.error e
  | Except.ok d' =>
    if conflictsInRun s t d' run then
      Except.error PyErr.conflictingDefinition
    else
      Except.ok ({ s with
        datasets := s.datasets ++ [(s.nextId, t._name, d')],
        memberships := s.memberships ++ [(run, s.nextId)],
        nextId := s.nextId + 1 }, s.nextId)

/-- The per-dataId loop of `insertDatasets`, threading the state. -/
def insertDatasetsGo (t : DatasetType) (run : String) :
    List DataId → RegistryState → Except PyErr (RegistryState × List Nat)
  | [], s => Except.ok (s, [])
  | d :: ds, s =>
    match insertOneDataset s t d run with
    | Except.error e => Except.error e
    | Except.ok (s', i) =>
      match insertDatasetsGo t run ds s' with
      | Except.error e => Except.error e
      | Except.ok (s'', ids) => Except.ok (s'', i :: ids)

/-- Modelled from the spec (§4.5, §4.4): the whole `insertDatasets`
call is one transactional unit — on success the final state is
committed, on any error the state visible to the caller is the
original one (all inserts attempted in the call are rolled back). -/
def insertDatasets (s : RegistryState) (t : DatasetType)
    (dIds : List DataId) (run : String) :
    RegistryState × Except PyErr (List Nat) :=
  match insertDatasetsGo t run dIds s with
  | Except.ok (s', ids) => (s', Except.ok ids)
  | Except.error e => (s, Except.error e)

/-- Integrity invariant of the registry state: dataset ids are below
the id sequence, membership rows reference allocated ids, and no two
distinct dataset rows with equal (type name, data ID) are members of
one run. -/
structure RegInv (s : RegistryState) : Prop where
  ids_lt : ∀ row ∈ s.datasets, row.1 < s.nextId
  mem_lt : ∀ m ∈ s.memberships, m.2 < s.nextId
  unique : ∀ r1 ∈ s.datasets, ∀ r2 ∈ s.datasets, ∀ run : String,
    r1.2.1 = r2.2.1 → r1.2.2 = r2.2.2 →
    (run, r1.1) ∈ s.memberships → (run, r2.1) ∈ s.memberships →
    r1.1 = r2.1

/-- A successful single insert standardizes the data ID, appends one
dataset row and one membership row, advances the id sequence, and
preserves any conflict that already existed. -/
theorem insertOneDataset_mono {s : RegistryState} {t : DatasetType}
    {d : DataId} {run : String} {s' : RegistryState} {i : Nat}
    (h : insertOneDataset s t d run = Except.ok (s', i)) :
    ∃ d', standardize d t._dimensions = Except.ok d' ∧
      s' = { s with
        datasets := s.datasets ++ [(s.nextId, t._name, d')],
        memberships := s.memberships ++ [(run, s.nextId)],
        nextId := s.nextId + 1 } ∧
    ∀ (t0 : DatasetType) (d0 : DataId) (run0 : String),
      conflictsInRun s t0 d0 run0 = true →
      conflictsInRun s' t0 d0 run0 = true := by
  unfold insertOneDataset at h
  split at h
  · cases h
  · rename_i d' hstd
    split at h
    · cases h
    · injection h with h
      injection h with h1 h2
      refine ⟨d', hstd, h1.symm, ?_⟩
      intro t0 d0 run0 hc
      rw [← h1]
      rcases List.any_eq_true.mp hc with ⟨row, hrow, hp⟩
      refine List.any_eq_true.mpr ⟨row, List.mem_append_left _ hrow, ?_⟩
      simp only [Bool.and_eq_true] at hp ⊢
      refine ⟨hp.1, ?_⟩
      rcases List.any_eq_true.mp hp.2 with ⟨m, hm, hmp⟩
      exact List.any_eq_true.mpr ⟨m, List.mem_append_left _ hm, hmp⟩

/-- A successful single insert preserves the integrity invariant: the
new row cannot collide with an existing (type, dataId) in the run
because the conflict check rejected that, and its fresh id keeps
membership rows unambiguous. -/
theorem insertOneDataset_inv {s : RegistryState} {t : DatasetType}
    {d : DataId} {run : String} {s' : RegistryState} {i : Nat}
    (h : insertOneDataset s t d run = Except.ok (s', i))
    (hinv : RegInv s) : RegInv s' := by
  unfold insertOneDataset at h
  split at h
  · cases h
  · rename_i d' hstd
    split at h
    · cases h
    · rename_i hnoc
      injection h with h
      injection h with h1 h2
      rw [← h1]
      have hnoc' : conflictsInRun s t d' run = false := eq_false_of_ne_true hnoc
      refine ⟨?_, ?_, ?_⟩
      · intro row hrow
        rcases List.mem_append.mp hrow with hx | hx
        · exact Nat.lt_succ_of_lt (hinv.ids_lt row hx)
        · rw [List.mem_singleton.mp hx]
          exact Nat.lt_succ_self _
      · intro m hm
        rcases List.mem_append.mp hm with hx | hx
        · exact Nat.lt_succ_of_lt (hinv.mem_lt m hx)
        · rw [List.mem_singleton.mp hx]
          exact Nat.lt_succ_self _
      · intro r1 hr1 r2 hr2 run0 hty hdid hm1 hm2
        have hmem : ∀ r ∈ s.datasets, ∀ run1 : String,
            ((run1, r.1) ∈ s.memberships ++ [(run, s.nextId)]) →
            (run1, r.1) ∈ s.memberships := by
          intro r hr run1 hm
          rcases List.mem_append.mp hm with hx | hx
          · exact hx
          · exfalso
            have hlt := hinv.ids_lt r hr
            have h3 : r.1 = s.nextId :=
              congrArg Prod.snd (List.mem_singleton.mp hx)
            omega
        have hconfl : ∀ r ∈ s.datasets, r.2.1 = t._name → r.2.2 = d' →
            (run, r.1) ∈ s.memberships → False := by
          intro r hr hty0 hdid0 hm0
          have hcc : conflictsInRun s t d' run = true := by
            refine List.any_eq_true.mpr ⟨r, hr, ?_⟩
            simp only [Bool.and_eq_true, decide_eq_true_eq]
            exact ⟨⟨hty0, hdid0⟩, List.any_eq_true.mpr
              ⟨(run, r.1), hm0, by simp⟩⟩
          rw [hnoc'] at hcc
          cases hcc
        rcases List.mem_append.mp hr1 with hx1 | hx1
        · rcases List.mem_append.mp hr2 with hx2 | hx2
          · exact hinv.unique r1 hx1 r2 hx2 run0 hty hdid
              (hmem r1 hx1 run0 hm1) (hmem r2 hx2 run0 hm2)
          · exfalso
            have hr2v := List.mem_singleton.mp hx2
            have hm1' := hmem r1 hx1 run0 hm1
            have hrun0 : run0 = run := by
              rcases List.mem_append.mp hm2 with h3 | h3
              · exfalso
                have hlt := hinv.mem_lt (run0, r2.1) h3
                have h4 : r2.1 = s.nextId := by rw [hr2v]
                omega
              · exact congrArg Prod.fst (List.mem_singleton.mp h3)
            subst hrun0
            refine hconfl r1 hx1 ?_ ?_ hm1'
            · rw [hty, hr2v]
            · rw [hdid, hr2v]
        · rcases List.mem_append.mp hr2 with hx2 | hx2
          · exfalso
            have hr1v := List.mem_singleton.mp hx1
            have hm2' := hmem r2 hx2 run0 hm2
            have hrun0 : run0 = run := by
              rcases List.mem_append.mp hm1 with h3 | h3
              · exfalso
                have hlt := hinv.mem_lt (run0, r1.1) h3
                have h4 : r1.1 = s.nextId := by rw [hr1v]
                omega
              · exact congrArg Prod.fst (List.mem_singleton.mp h3)
            subst hrun0
            refine hconfl r2 hx2 ?_ ?_ hm2'
            · rw [← hty, hr1v]
            · rw [← hdid, hr1v]
          · rw [List.mem_singleton.mp hx1, List.mem_singleton.mp hx2]

/-- The loop errors with `ConflictingDefinitionError` whenever some
requested data ID (standardizable like all of them) already conflicts
with the starting state: successful earlier inserts only add rows, so
the conflict persists until the loop reaches it (or an earlier conflict
fires first). -/
theorem insertDatasetsGo_conflict (t : DatasetType) (run : String) :
    ∀ (dIds : List DataId) (s : RegistryState),
    (∀ d ∈ dIds, ∃ d', standardize d t._dimensions = Except.ok d') →
    (∃ d ∈ dIds, ∃ d', standardize d t._dimensions = Except.ok d' ∧
      conflictsInRun s t d' run = true) →
    insertDatasetsGo t run dIds s =
      Except.error PyErr.conflictingDefinition := by
  intro dIds
  induction dIds with
  | nil =>
    intro s _ hconf
    rcases hconf with ⟨d, hd, _⟩
    cases hd
  | cons d ds ih =>
    intro s hstd hconf
    obtain ⟨d1, hd1⟩ := hstd d (List.mem_cons_self d ds)
    show (match insertOneDataset s t d run with
      | Except.error e => Except.error e
      | Except.ok (s', i) =>
        match insertDatasetsGo t run ds s' with
        | Except.error e => Except.error e
        | Except.ok (s'', ids) => Except.ok (s'', i :: ids)) = _
    cases hone : insertOneDataset s t d run with
    | error e =>
      have he : e = PyErr.conflictingDefinition := by
        unfold insertOneDataset at hone
        split at hone
        · rename_i e2 hstd2
          rw [hd1] at hstd2
          cases hstd2
        · rename_i d2 hstd2
          split at hone
          · injection hone with hone
            exact hone.symm
          · cases hone
      rw [he]
    | ok out =>
      obtain ⟨s1, i⟩ := out
      have hmono := insertOneDataset_mono hone
      have hnoc : conflictsInRun s t d1 run = false := by
        unfold insertOneDataset at hone
        split at hone
        · cases hone
        · rename_i d2 hstd2
          rw [hd1] at hstd2
          injection hstd2 with hstd2
          subst hstd2
          split at hone
          · cases hone
          · rename_i hnc
            exact eq_false_of_ne_true hnc
      have hwit : ∃ d0 ∈ ds, ∃ d0h, standardize d0 t._dimensions
          = Except.ok d0h ∧ conflictsInRun s1 t d0h run = true := by
        rcases hconf with ⟨d0, hd0mem, d0h, hd0std, hd0conf⟩
        rcases List.mem_cons.mp hd0mem with hx | hx
        · exfalso
          subst hx
          rw [hd1] at hd0std
          injection hd0std with hd0std
          rw [← hd0std] at hd0conf
          rw [hnoc] at hd0conf
          cases hd0conf
        · obtain ⟨dm, hdm, hs1eq, hmonoc⟩ := hmono
          exact ⟨d0, hx, d0h, hd0std, hmonoc t d0h run hd0conf⟩
      show (match insertDatasetsGo t run ds s1 with
        | Except.error e => Except.error e
        | Except.ok (s'', ids) => Except.ok (s'', i :: ids)) = _
      rw [ih s1 (fun x hx => hstd x (List.mem_cons_of_mem d hx)) hwit]

/-- The loop preserves the integrity invariant. -/
theorem insertDatasetsGo_inv (t : DatasetType) (run : String) :
    ∀ (dIds : List DataId) (s s'' : RegistryState) (ids : List Nat),
    RegInv s →
    insertDatasetsGo t run dIds s = Except.ok (s'', ids) →
    RegInv s'' := by
  intro dIds
  induction dIds with
  | nil =>
    intro s s'' ids hinv h
    injection h with h
    cases h
    exact hinv
  | cons d ds ih =>
    intro s s'' ids hinv h
    unfold insertDatasetsGo at h
    cases hone : insertOneDataset s t d run with
    | error e =>
      rw [hone] at h
      cases h
    | ok out =>
      obtain ⟨s1, i⟩ := out
      rw [hone] at h
      replace h : (match insertDatasetsGo t run ds s1 with
        | Except.error e => Except.error e
        | Except.ok (s2, ids2) => Except.ok (s2, i :: ids2)) =
          Except.ok (s'', ids) := h
      cases hrest : insertDatasetsGo t run ds s1 with
      | error e =>
        rw [hrest] at h
        cases h
      | ok out2 =>
        obtain ⟨s2, ids2⟩ := out2
        rw [hrest] at h
        injection h with h
        injection h with h1 h2
        rw [← h1]
        exact ih s1 s2 ids2 (insertOneDataset_inv hone hinv) hrest

/-- C3: when every requested data ID standardizes, a conflict of any
one of them with the starting state fails the whole call with
`ConflictingDefinitionError` and leaves the caller-visible state — in
particular the dataset and membership row counts — unchanged; any
error outcome rolls the state back; and a successful call preserves
the invariant that no two dataset rows with equal (type, dataId) are
members of the same run. -/
theorem insertDatasets_transactional (s : RegistryState)
    (t : DatasetType) (dIds : List DataId) (run : String) :
    ((∀ d ∈ dIds, ∃ d', standardize d t._dimensions = Except.ok d') →
      (∃ d ∈ dIds, ∃ d', standardize d t._dimensions = Except.ok d' ∧
        conflictsInRun s t d' run = true) →
      insertDatasets s t dIds run =
        (s, Except.error PyErr.conflictingDefinition)) ∧
    (∀ e, (insertDatasets s t dIds run).2 = Except.error e →
      (insertDatasets s t dIds run).1 = s) ∧
    (RegInv s → ∀ s'' ids,
      insertDatasets s t dIds run = (s'', Except.ok ids) →
      RegInv s'') := by
  refine ⟨?_, ?_, ?_⟩
  · intro hstd hconf
    unfold insertDatasets
    rw [insertDatasetsGo_conflict t run dIds s hstd hconf]
  · intro e herr
    unfold insertDatasets at herr ⊢
    cases hgo : insertDatasetsGo t run dIds s with
    | ok out =>
      obtain ⟨s1, ids1⟩ := out
      rw [hgo] at herr
      cases herr
    | error e2 =>
      rfl
  · intro hinv s'' ids h
    unfold insertDatasets at h
    cases hgo : insertDatasetsGo t run dIds s with
    | ok out =>
      obtain ⟨s1, ids1⟩ := out
      rw [hgo] at h
      injection h with h1 h2
      rw [← h1]
      exact insertDatasetsGo_inv t run dIds s s1 ids1 hinv hgo
    | error e2 =>
      rw [hgo] at h
      injection h with h1 h2
      cases h2

/-- C3 witness: re-inserting the same (type, dataId) into the same run
fails with `ConflictingDefinitionError` and leaves the state — hence
the row counts — unchanged. -/
theorem insertDatasets_transactional_witness :
    (∀ d ∈ [dRef], ∃ d', standardize d dt0._dimensions = Except.ok d') ∧
    (∃ d ∈ [dRef], ∃ d', standardize d dt0._dimensions = Except.ok d' ∧
      conflictsInRun (RegistryState.mk [dt0] [(0, "test", dRef)]
        [("run1", 0)] 1) dt0 d' "run1" = true) ∧
    insertDatasets (RegistryState.mk [dt0] [(0, "test", dRef)]
        [("run1", 0)] 1) dt0 [dRef] "run1" =
      (RegistryState.mk [dt0] [(0, "test", dRef)] [("run1", 0)] 1,
        Except.error PyErr.conflictingDefinition) := by
  have hstd : ∀ d ∈ [dRef], ∃ d',
      standardize d dt0._dimensions = Except.ok d' := by
    intro d hd
    rw [List.mem_singleton.mp hd]
    exact ⟨dRef, rfl⟩
  have hconf : ∃ d ∈ [dRef], ∃ d',
      standardize d dt0._dimensions = Except.ok d' ∧
      conflictsInRun (RegistryState.mk [dt0] [(0, "test", dRef)]
        [("run1", 0)] 1) dt0 d' "run1" = true :=
    ⟨dRef, List.mem_singleton_self dRef, dRef, rfl, rfl⟩
  exact ⟨hstd, hconf,
    (insertDatasets_transactional (RegistryState.mk [dt0]
      [(0, "test", dRef)] [("run1", 0)] 1) dt0 [dRef] "run1").1 hstd hconf⟩

end DafButler
